import Mathlib

/-!
# Effect stack model (kdenlive, `src/effects/effectstack/model/effectstackmodel.cpp`)

A shallow embedding of `EffectStackModel`: the tree of effect items, the filter
list of the bound MLT service, the undo stack and the emitted `dataChanged`
signals are explicit state; every member function of the C++ class that the
properties below talk about is a Lean function on that state.

Collaborators whose calls leave this state untouched
(`pCore->refreshProjectItem`, `setEffectStackEnabled`, `connectDataChanged`)
are not tracked.
-/

namespace EffectStack

/-! ## Tree items -/

/-- The tag returned by `AbstractEffectItem::effectItemType()`. -/
inductive EffectItemType where
  | Effect
  | Group
  deriving DecidableEq, Repr

/-- A node of the effect tree (`TreeItem` / `AbstractEffectItem`).
`id` is `getId()`, `itemType` is `effectItemType()`, `assetId` is
`dataColumn(1)` (the asset id of an effect, the name of a group), `filter` is
the identity of the MLT filter owned by the item (`filter().get_filter()`),
`props` are the named values stored in that filter, `children` the ordered
child items. -/
inductive Item where
  | mk (id : Nat) (itemType : EffectItemType) (assetId : String) (filter : Nat)
       (props : List (String × Int)) (children : List Item)

namespace Item

/-- The id of the item, `getId()`. -/
def id : Item → Nat
  | mk i _ _ _ _ _ => i

/-- The type tag of the item, `effectItemType()`. -/
def itemType : Item → EffectItemType
  | mk _ t _ _ _ _ => t

/-- The second data column of the item, `dataColumn(1)` / `getAssetId()`. -/
def assetId : Item → String
  | mk _ _ a _ _ _ => a

/-- The identity of the MLT filter bound to the item. -/
def filter : Item → Nat
  | mk _ _ _ f _ _ => f

/-- The named values of the item's filter. -/
def props : Item → List (String × Int)
  | mk _ _ _ _ p _ => p

/-- The ordered children of the item. -/
def children : Item → List Item
  | mk _ _ _ _ _ cs => cs

/-- The number of children, `childCount()`. -/
def childCount (it : Item) : Nat := it.children.length

/-- The item with its children replaced. -/
def withChildren : Item → List Item → Item
  | mk i t a f p _, cs => mk i t a f p cs

/-- The item with its filter values replaced. -/
def withProps : Item → List (String × Int) → Item
  | mk i t a f _ cs, p => mk i t a f p cs

mutual
/-- Number of nodes of a subtree. -/
def size : Item → Nat
  | mk _ _ _ _ _ cs => 1 + sizeList cs
/-- Number of nodes of a forest. -/
def sizeList : List Item → Nat
  | [] => 0
  | c :: cs => size c + sizeList cs
end

mutual
/-- All nodes of a subtree in left-to-right depth-first pre-order. -/
def preorder : Item → List Item
  | mk i t a f p cs => mk i t a f p cs :: preorderList cs
/-- All nodes of a forest in left-to-right depth-first pre-order. -/
def preorderList : List Item → List Item
  | [] => []
  | c :: cs => preorder c ++ preorderList cs
end

end Item

/-! ## MLT properties and the filter service -/

/-- Modelled from the spec: `setProperty(name, value)` of the filter service
interface (`Mlt::Properties::set`, not part of the sources): the named value is
replaced. -/
def propSet (ps : List (String × Int)) (name : String) (v : Int) : List (String × Int) :=
  (name, v) :: ps.filter (fun p => p.1 != name)

/-- Modelled from the spec: `getProperty(name)` of the filter service interface
(`Mlt::Properties::get_int`, not part of the sources): the stored value, `0`
when the name is not set. -/
def propGetInt (ps : List (String × Int)) (name : String) : Int :=
  match ps.lookup name with
  | some v => v
  | none => 0

/-- The value of a C++ `int` expression: two's complement wrap-around to 32 bits. -/
def wrap32 (x : Int) : Int := (x + 2147483648) % 4294967296 - 2147483648

/-- C++ `int` subtraction. -/
def intSub (a b : Int) : Int := wrap32 (a - b)

/-- Modelled from the spec: `EffectItemModel::plant` (not part of the sources).
Planting attaches the item's filter at the end of the filter list of the
service; a group owns no filter; an expired service is left alone. -/
def plant (it : Item) (service : Option (List Nat)) : Option (List Nat) :=
  match it.itemType with
  | .Effect => service.map (fun fs => fs ++ [it.filter])
  | .Group => service

/-- Modelled from the spec: `EffectItemModel::unplant` (not part of the sources).
Unplanting detaches the item's filter from the filter list of the service. -/
def unplant (it : Item) (service : Option (List Nat)) : Option (List Nat) :=
  match it.itemType with
  | .Effect => service.map (fun fs => fs.erase it.filter)
  | .Group => service

/-! ## Undo commands -/

/-- The two closures built by `addItem_lambda` and `removeItem_lambda`. They
capture the item itself (here: its id), not a row. -/
inductive Fun where
  | addItem (id : Nat) (parentId : Int)
  | removeItem (id : Nat)
  deriving DecidableEq, Repr

/-- The command pushed by `PUSH_UNDO(undo, redo, text)`. -/
structure Command where
  undo : Fun
  redo : Fun
  text : String
  deriving DecidableEq, Repr

/-- Modelled from the spec: the undo/redo command stack (`DocUndoStack`, not
part of the sources). `commands` are the commands that can be undone, most
recent first; `undone` those that can be redone, next one first. -/
structure UndoStack where
  commands : List Command
  undone : List Command
  deriving DecidableEq, Repr

/-- Modelled from the spec: `push(undoAction, redoAction, description)`; pushing
executes nothing and drops the commands that could be redone. -/
def UndoStack.push (u : UndoStack) (c : Command) : UndoStack :=
  { commands := c :: u.commands, undone := [] }

/-! ## The model -/

/-- A `QModelIndex` reduced to its row; `none` is the invalid index. -/
abbrev ModelIndex := Option Nat

/-- The state of an `EffectStackModel`.
`m_service` is the filter list of the bound service (`none` once the weak
pointer has expired); `detached` holds the items that are alive outside the
tree (owned by the closures of the undo stack, or just constructed);
`nextId` is the source of fresh ids and filter identities;
`itemDuration` is `pCore->getItemDuration(m_ownerId)`;
`getName` is `EffectsRepository::get()->getName`;
`dataChanged` is the log of emitted `dataChanged(topLeft, bottomRight)`
signals, most recent first. -/
structure EffectStackModel where
  rootItem : Item
  m_service : Option (List Nat)
  m_undoStack : UndoStack
  detached : List Item
  nextId : Nat
  itemDuration : Int
  getName : String → String
  dataChanged : List (ModelIndex × ModelIndex)

/-! ## Tree operations (`TreeItem`, `AbstractTreeModel`) -/

mutual
/-- Modelled from the spec: `AbstractTreeModel::getItemById` (the
`allItemsIndex` lookup, not part of the sources) on a subtree. -/
def findItem (id : Nat) : Item → Option Item
  | .mk i t a f p cs => if i = id then some (.mk i t a f p cs) else findItemList id cs
/-- The lookup of `findItem` on a forest. -/
def findItemList (id : Nat) : List Item → Option Item
  | [] => none
  | c :: cs =>
    match findItem id c with
    | some x => some x
    | none => findItemList id cs
end

mutual
/-- Modelled from the spec: `TreeItem::removeChild` (not part of the sources),
applied at the parent of the item with the given id: the item is taken out of
its parent's child sequence. -/
def removeChild (id : Nat) : Item → Item
  | .mk i t a f p cs => .mk i t a f p (removeChildList id cs)
/-- The removal of `removeChild` on a forest. -/
def removeChildList (id : Nat) : List Item → List Item
  | [] => []
  | c :: cs => if c.id = id then cs else removeChild id c :: removeChildList id cs
end

mutual
/-- Modelled from the spec: `TreeItem::appendChild` (not part of the sources),
applied at the item with id `parentId`: `child` becomes its last child. -/
def appendChildTo (parentId : Nat) (child : Item) : Item → Item
  | .mk i t a f p cs =>
    if i = parentId then .mk i t a f p (cs ++ [child])
    else .mk i t a f p (appendChildToList parentId child cs)
/-- The insertion of `appendChildTo` on a forest. -/
def appendChildToList (parentId : Nat) (child : Item) : List Item → List Item
  | [] => []
  | c :: cs => appendChildTo parentId child c :: appendChildToList parentId child cs
end

mutual
/-- The item with the given id replaced by its image under `g`. -/
def updateItem (id : Nat) (g : Item → Item) : Item → Item
  | .mk i t a f p cs =>
    if i = id then g (.mk i t a f p cs) else .mk i t a f p (updateItemList id g cs)
/-- The replacement of `updateItem` on a forest. -/
def updateItemList (id : Nat) (g : Item → Item) : List Item → List Item
  | [] => []
  | c :: cs => updateItem id g c :: updateItemList id g cs
end

mutual
/-- The row of the item with the given id inside its parent, searching the
children of one item. -/
def rowBelow (id : Nat) : Item → Option Nat
  | .mk _ _ _ _ _ cs => rowInList id 0 cs
/-- The row of the item with the given id inside its parent, searching a child
sequence whose first element has row `k`. -/
def rowInList (id : Nat) (k : Nat) : List Item → Option Nat
  | [] => none
  | c :: cs =>
    if c.id = id then some k
    else
      match rowBelow id c with
      | some r => some r
      | none => rowInList id (k + 1) cs
end

/-- Modelled from the spec: `AbstractTreeModel::getIndexFromItem` (not part of
the sources): the index of an item carries its row in its parent; the root and
items outside the tree have the invalid index. -/
def getIndexFromItem (m : EffectStackModel) (item : Item) : ModelIndex :=
  rowBelow item.id m.rootItem

/-- Modelled from the spec: `TreeItem::moveChild` (not part of the sources),
called on the root: the child is taken out of its parent and spliced into the
child sequence of the root at row `ix`. -/
def moveChild (ix : Nat) (child : Item) (root : Item) : Item :=
  let r := removeChild child.id root
  r.withChildren (r.children.take ix ++ child :: r.children.drop ix)

mutual
/-- The id of the parent of the item with the given id, searching below one
item (`parentItem().lock()->getId()`). -/
def parentIdBelow (id : Nat) : Item → Option Nat
  | .mk i _ _ _ _ cs => parentIdInList id i cs
/-- The search of `parentIdBelow` in the child sequence of the item `pid`. -/
def parentIdInList (id : Nat) (pid : Nat) : List Item → Option Nat
  | [] => none
  | c :: cs =>
    if c.id = id then some pid
    else
      match parentIdBelow id c with
      | some r => some r
      | none => parentIdInList id pid cs
end

/-! ## Registration hooks -/

/-- `EffectStackModel::registerItem`: a non-root item is planted, and the
signal `dataChanged(ix, ix)` is emitted when its index is valid. -/
def registerItem (item : Item) (m : EffectStackModel) : EffectStackModel :=
  if item.id = m.rootItem.id then m
  else
    let m1 := { m with m_service := plant item m.m_service }
    let ix := getIndexFromItem m1 item
    if ix.isSome then { m1 with dataChanged := (ix, ix) :: m1.dataChanged } else m1

/-- `EffectStackModel::deregisterItem`: a non-root item is unplanted. -/
def deregisterItem (item : Item) (m : EffectStackModel) : EffectStackModel :=
  if item.id = m.rootItem.id then m
  else { m with m_service := unplant item m.m_service }

/-- Modelled from the spec: `TreeItem::registerSelf` (not part of the sources):
the insert hook fires for every node that enters the tree. -/
def registerSelf (item : Item) (m : EffectStackModel) : EffectStackModel :=
  item.preorder.foldl (fun s n => registerItem n s) m

/-- Modelled from the spec: `TreeItem::deregisterSelf` (not part of the
sources): the remove hook fires for every node that leaves the tree. -/
def deregisterSelf (item : Item) (m : EffectStackModel) : EffectStackModel :=
  item.preorder.foldl (fun s n => deregisterItem n s) m

/-- The item with the given id is taken out of the tree (`removeChild` at its
parent, with the remove hooks); `none` when no such item is registered. -/
def detachItem (id : Nat) (m : EffectStackModel) : Option (Item × EffectStackModel) :=
  match findItemList id m.rootItem.children with
  | none => none
  | some item =>
    some (item, deregisterSelf item { m with rootItem := removeChild id m.rootItem })

/-- Modelled from the spec: the closure of `AbstractTreeModel::removeItem_lambda`
(not part of the sources): the item is removed from its parent and stays alive
outside the tree; fails when the id is not registered. -/
def removeItem_lambda (id : Nat) (m : EffectStackModel) : Bool × EffectStackModel :=
  match detachItem id m with
  | none => (false, m)
  | some (item, m1) => (true, { m1 with detached := item :: m1.detached })

/-- Modelled from the spec: the closure of `AbstractTreeModel::addItem_lambda`
(not part of the sources): insertion sets the parent of the item
(`changeParent`): the item leaves its former parent, if any, and becomes the
last child of the item `parentId`; fails when that parent is not registered. -/
def addItem_lambda (id : Nat) (parentId : Int) (m : EffectStackModel) :
    Bool × EffectStackModel :=
  if parentId ≠ -1 ∧ (parentId < 0 ∨ (findItem parentId.toNat m.rootItem).isNone) then
    (false, m)
  else
    let cur : Option (Item × EffectStackModel) :=
      match m.detached.find? (fun c => c.id = id) with
      | some item => some (item, { m with detached := m.detached.filter (fun c => c.id ≠ id) })
      | none => detachItem id m
    match cur with
    | none => (false, m)
    | some (item, m1) =>
      if parentId = -1 then (true, { m1 with detached := item :: m1.detached })
      else
        (true, registerSelf item
          { m1 with rootItem := appendChildTo parentId.toNat item m1.rootItem })

/-- Running a closure. -/
def Fun.run : Fun → EffectStackModel → Bool × EffectStackModel
  | .addItem id parentId, m => addItem_lambda id parentId m
  | .removeItem id, m => removeItem_lambda id m

/-- Modelled from the spec: `EffectItemModel::construct` (not part of the
sources): a new leaf effect with a fresh id and a fresh filter; it is alive
outside the tree until it is inserted. -/
def EffectItemModel.construct (effectId : String) (m : EffectStackModel) :
    Item × EffectStackModel :=
  let item := Item.mk m.nextId .Effect effectId m.nextId [] []
  (item, { m with nextId := m.nextId + 1, detached := item :: m.detached })

/-- Modelled from the spec: `setParameters` (not part of the sources) on the
item with the given id: every given parameter is set on it. -/
def setParameters (id : Nat) (params : List (String × Int)) (m : EffectStackModel) :
    EffectStackModel :=
  let g : Item → Item := fun c =>
    c.withProps (params.foldl (fun ps kv => propSet ps kv.1 kv.2) c.props)
  { m with
    rootItem := updateItem id g m.rootItem
    detached := m.detached.map (fun c => if c.id = id then g c else c) }

/-- The macro `PUSH_UNDO(undo, redo, text)`. -/
def pushUndo (undo redo : Fun) (text : String) (m : EffectStackModel) : EffectStackModel :=
  { m with m_undoStack := m.m_undoStack.push { undo := undo, redo := redo, text := text } }

/-! ## Structural operations -/

/-- `EffectStackModel::removeEffect`. The `Q_ASSERT` that the item is registered is
not a statement of the function; on an id that is not registered the redo
closure fails and nothing is pushed. -/
def removeEffect (effect : Item) (m : EffectStackModel) : EffectStackModel :=
  let parentId : Int :=
    match parentIdBelow effect.id m.rootItem with
    | some p => (p : Int)
    | none => -1
  let undo := Fun.addItem effect.id parentId
  let redo := Fun.removeItem effect.id
  let (res, m1) := redo.run m
  if res then pushUndo undo redo ("Delete effect " ++ m.getName effect.assetId) m1 else m1

/-- `EffectStackModel::copyEffect`. -/
def copyEffect (sourceItem : Item) (m : EffectStackModel) : EffectStackModel :=
  if sourceItem.childCount > 0 then m
  else
    let effectId := sourceItem.assetId
    let (effect, m0) := EffectItemModel.construct effectId m
    let m1 := setParameters effect.id sourceItem.props m0
    let undo := Fun.removeItem effect.id
    let redo := Fun.addItem effect.id m1.rootItem.id
    let (res, m2) := redo.run m1
    if res then pushUndo undo redo ("copy effect " ++ m.getName effectId) m2 else m2

/-- `EffectStackModel::appendEffect`. -/
def appendEffect (effectId : String) (m : EffectStackModel) : EffectStackModel :=
  let (effect, m1) := EffectItemModel.construct effectId m
  let undo := Fun.removeItem effect.id
  let redo := Fun.addItem effect.id m1.rootItem.id
  let (res, m2) := redo.run m1
  if res then pushUndo undo redo ("Add effect " ++ m.getName effectId) m2 else m2

/-- The first loop of `moveEffect`: the childless items of the given rows are
unplanted and collected. -/
def unplantRows : List Item → Option (List Nat) → List Item → Option (List Nat) × List Item
  | [], service, effects => (service, effects)
  | c :: cs, service, effects =>
    if c.childCount > 0 then unplantRows cs service effects
    else unplantRows cs (unplant c service) (effects ++ [c])

/-- The second loop of `moveEffect`: the collected items are planted again, in
order. -/
def plantAll : List Item → Option (List Nat) → Option (List Nat)
  | [], service => service
  | e :: es, service => plantAll es (plant e service)

/-- `EffectStackModel::moveEffect`. -/
def moveEffect (destRow : Nat) (item : Item) (m : EffectStackModel) : EffectStackModel :=
  if item.childCount > 0 then m
  else
    let ix := getIndexFromItem m item
    let m1 := { m with rootItem := moveChild destRow item m.rootItem }
    let (service1, effects) := unplantRows (m1.rootItem.children.drop destRow) m1.m_service []
    let m2 := { m1 with m_service := plantAll effects service1 }
    let ix2 :=
      match effects.getLast? with
      | some eff => getIndexFromItem m2 eff
      | none => ix
    { m2 with dataChanged := (ix, ix2) :: m2.dataChanged }

/-- The loop of `EffectStackModel::getEffectById`, started at row `i`. -/
def getEffectByIdFrom (effectName : String) : Nat → List Item → Int
  | _, [] => -1
  | i, c :: cs =>
    if c.assetId = effectName then (i : Int) else getEffectByIdFrom effectName (i + 1) cs

/-- `EffectStackModel::getEffectById`: the row of the first child of the root
whose second data column is `effectName`, `-1` when there is none. -/
def getEffectById (effectName : String) (m : EffectStackModel) : Int :=
  getEffectByIdFrom effectName 0 m.rootItem.children

/-- `EffectStackModel::getEffectStackRow`. -/
def getEffectStackRow (row : Int) (m : EffectStackModel) : Option Item :=
  if row < 0 then none else m.rootItem.children.get? row.toNat

/-- The child sequence with `g` applied to the item at the given row. -/
def modifyRow (g : Item → Item) : Nat → List Item → List Item
  | _, [] => []
  | 0, c :: cs => g c :: cs
  | n + 1, c :: cs => c :: modifyRow g n cs

/-- The statement `effect->filter().set(name, v)` for the effect of the given
row. -/
def setFilterProp (row : Int) (name : String) (v : Int) (m : EffectStackModel) :
    EffectStackModel :=
  if row < 0 then m
  else
    let cs := modifyRow (fun c => c.withProps (propSet c.props name v)) row.toNat
      m.rootItem.children
    { m with rootItem := m.rootItem.withChildren cs }

/-- The index of the effect of the given row, `getIndexFromItem(effect)`. -/
def indexOfRow (row : Int) (m : EffectStackModel) : ModelIndex :=
  match getEffectStackRow row m with
  | some effect => getIndexFromItem m effect
  | none => none

/-- `emit dataChanged(topLeft, bottomRight)`. -/
def emitDataChanged (topLeft bottomRight : ModelIndex) (m : EffectStackModel) :
    EffectStackModel :=
  { m with dataChanged := (topLeft, bottomRight) :: m.dataChanged }

/-! ## Fades -/

/-- The block `if (audioRow == -1 && videoRow == -1) { ... }` of
`adjustFadeLength`, which is the same in the fade in and in the fade out
branch up to the two asset ids. It returns the two rows and the new state. -/
def appendMissingFades (audioId videoId : String) (audioFade videoFade : Bool)
    (audioRow videoRow : Int) (m : EffectStackModel) : Int × Int × EffectStackModel :=
  if audioRow = -1 ∧ videoRow = -1 then
    let (audioRow1, m1) :=
      if audioFade then
        let ma := appendEffect audioId m
        ((ma.rootItem.childCount : Int) - 1, ma)
      else (audioRow, m)
    let (videoRow1, m2) :=
      if videoFade then
        let mv := appendEffect videoId m1
        ((mv.rootItem.childCount : Int) - 1, mv)
      else (videoRow, m1)
    (audioRow1, videoRow1, m2)
  else (audioRow, videoRow, m)

/-- `EffectStackModel::adjustFadeLength` (the `setFadeLength` of the spec). -/
def adjustFadeLength (duration : Int) (fromStart audioFade videoFade : Bool)
    (m : EffectStackModel) : Bool × EffectStackModel :=
  if fromStart then
    -- Fade in
    let audioRow0 : Int := if audioFade then getEffectById "fadein" m else -1
    let videoRow0 : Int := if videoFade then getEffectById "fade_from_black" m else -1
    let (audioRow, videoRow, m1) :=
      appendMissingFades "fadein" "fade_from_black" audioFade videoFade audioRow0 videoRow0 m
    let (audioIx, m2) : ModelIndex × EffectStackModel :=
      if audioFade = true ∧ audioRow > -1 then
        let ma := setFilterProp audioRow "out" duration m1
        (indexOfRow audioRow ma, ma)
      else (none, m1)
    let (videoIx, m3) : ModelIndex × EffectStackModel :=
      if videoFade = true ∧ videoRow > -1 then
        let mv := setFilterProp videoRow "out" duration m2
        (indexOfRow videoRow mv, mv)
      else (none, m2)
    (true, emitDataChanged (if audioIx.isSome then audioIx else videoIx)
      (if videoIx.isSome then videoIx else audioIx) m3)
  else
    -- Fade out
    let audioRow0 : Int := if audioFade then getEffectById "fadeout" m else -1
    let videoRow0 : Int := if videoFade then getEffectById "fade_to_black" m else -1
    let (audioRow, videoRow, m1) :=
      appendMissingFades "fadeout" "fade_to_black" audioFade videoFade audioRow0 videoRow0 m
    let out := m1.itemDuration
    let (audioIx, m2) : ModelIndex × EffectStackModel :=
      if audioFade = true ∧ audioRow > -1 then
        let ma := setFilterProp audioRow "in" (intSub out duration)
          (setFilterProp audioRow "out" out m1)
        (indexOfRow audioRow ma, ma)
      else (none, m1)
    let (videoIx, m3) : ModelIndex × EffectStackModel :=
      if videoFade = true ∧ videoRow > -1 then
        let mv := setFilterProp videoRow "in" (intSub out duration)
          (setFilterProp videoRow "out" out m2)
        (indexOfRow videoRow mv, mv)
      else (none, m2)
    (true, emitDataChanged (if audioIx.isSome then audioIx else videoIx)
      (if videoIx.isSome then videoIx else audioIx) m3)

/-- `EffectStackModel::getFadePosition`. -/
def getFadePosition (fromStart : Bool) (m : EffectStackModel) : Int :=
  if fromStart then
    let row0 := getEffectById "fadein" m
    let row := if row0 = -1 then getEffectById "fade_from_black" m else row0
    if row ≠ -1 then
      match getEffectStackRow row m with
      | some effect => propGetInt effect.props "out"
      | none => 0
    else 0
  else
    let row0 := getEffectById "fadeout" m
    let row := if row0 = -1 then getEffectById "fade_to_black" m else row0
    if row ≠ -1 then
      match getEffectStackRow row m with
      | some effect => intSub (propGetInt effect.props "out") (propGetInt effect.props "in")
      | none => 0
    else 0

/-! ## Import -/

/-- Modelled from the spec: `TreeItem::appendChild` (not part of the sources)
called on the root, with the insert hooks. -/
def appendChild (child : Item) (m : EffectStackModel) : EffectStackModel :=
  registerSelf child
    { m with
      rootItem := m.rootItem.withChildren (m.rootItem.children ++ [child])
      detached := m.detached.filter (fun c => c.id ≠ child.id) }

/-- The body of the loop of `importEffects` for one item of the source stack. -/
def importEffect (item : Item) (m : EffectStackModel) : EffectStackModel :=
  if item.childCount > 0 then m
  else
    let (clone, m0) := EffectItemModel.construct item.assetId m
    let m1 := appendChild clone m0
    let m2 := setParameters clone.id item.props m1
    let redo := Fun.addItem clone.id m2.rootItem.id
    (redo.run m2).2

/-- `EffectStackModel::importEffects`; `sourceStack` is another stack. -/
def importEffects (sourceStack : EffectStackModel) (m : EffectStackModel) : EffectStackModel :=
  sourceStack.rootItem.children.foldl (fun s item => importEffect item s) m

/-! ## Groups and removal by name -/

/-- Modelled from the spec: `EffectGroupModel::construct` (not part of the
sources): a new group item with a fresh id and the given name, which is also its
second data column; a group owns no filter. -/
def EffectGroupModel.construct (name : String) (m : EffectStackModel) :
    Item × EffectStackModel :=
  let item := Item.mk m.nextId .Group name 0 [] []
  (item, { m with nextId := m.nextId + 1, detached := item :: m.detached })

/-- The outcome of the traversal of `checkConsistency`. -/
inductive DfsResult where
  | outOfFuel
  | effectWithChildren
  | done (allFilters : List Item)

/-- The loop `for (int i = current->childCount() - 1; i >= 0; --i) stck.push(child(i))`;
the head of the list is the top of the stack. -/
def pushChildren (children : List Item) (stck : List Item) : List Item :=
  children.foldr (fun c st => c :: st) stck

/-- The loop `while (!stck.empty())` of `checkConsistency`, run for at most
`fuel` iterations. -/
def dfsLoop : Nat → List Item → List Item → DfsResult
  | _, [], allFilters => .done allFilters
  | 0, _ :: _, _ => .outOfFuel
  | fuel + 1, current :: stck, allFilters =>
    if current.itemType = .Effect then
      if current.childCount > 0 then .effectWithChildren
      else dfsLoop fuel stck (allFilters ++ [current])
    else dfsLoop fuel (pushChildren current.children stck) allFilters

/-- The last loop of `checkConsistency`: the filter of the service at every
position is the filter of the collected item at that position. -/
def filtersAgree (fs : List Nat) (allFilters : List Item) : Bool :=
  (List.range allFilters.length).all
    (fun i => decide (fs.get? i = (allFilters.get? i).map Item.filter))

/-- `EffectStackModel::checkConsistency`; `baseCheck` is the result of
`AbstractTreeModel::checkConsistency()`, which is not part of the sources. The
traversal gets one iteration per node of the tree. -/
def checkConsistency (baseCheck : Bool) (m : EffectStackModel) : Bool :=
  if !baseCheck then false
  else
    match dfsLoop m.rootItem.size [m.rootItem] [] with
    | .outOfFuel => false
    | .effectWithChildren => false
    | .done allFilters =>
      match m.m_service with
      | none => false
      | some fs =>
        if fs.length ≠ allFilters.length then false
        else filtersAgree fs allFilters

/-! ## Construction, undo and redo -/

/-- `EffectStackModel::construct`: the empty stack bound to a service. -/
def EffectStackModel.construct (service : Option (List Nat)) (itemDuration : Int)
    (getName : String → String) : EffectStackModel :=
  { rootItem := .mk 0 .Group "root" 0 [] []
    m_service := service
    m_undoStack := { commands := [], undone := [] }
    detached := []
    nextId := 1
    itemDuration := itemDuration
    getName := getName
    dataChanged := [] }

/-- Modelled from the spec: the rollback primitive of the undo stack (not part
of the sources): the undo closure of the most recent command is run. -/
def undo (m : EffectStackModel) : EffectStackModel :=
  match m.m_undoStack.commands with
  | [] => m
  | c :: rest =>
    { (c.undo.run m).2 with
      m_undoStack := { commands := rest, undone := c :: m.m_undoStack.undone } }

/-- Modelled from the spec: the execute primitive of the undo stack (not part
of the sources): the redo closure of the most recently undone command is run. -/
def redo (m : EffectStackModel) : EffectStackModel :=
  match m.m_undoStack.undone with
  | [] => m
  | c :: rest =>
    { (c.redo.run m).2 with
      m_undoStack := { commands := c :: m.m_undoStack.commands, undone := rest } }

/-- One operation on a stack of leaf effects; items of the stack are named by
their row. -/
inductive Op where
  | append (effectId : String)
  | remove (row : Nat)
  | move (destRow : Nat) (row : Nat)
  | copy (sourceItem : Item)
  | undo
  | redo

/-- One operation applied to the model; `none` when the row of the item or the
destination row is not a row of the stack. -/
def step (m : EffectStackModel) : Op → Option EffectStackModel
  | .append effectId => some (appendEffect effectId m)
  | .remove row =>
    match m.rootItem.children.get? row with
    | some item => some (removeEffect item m)
    | none => none
  | .move destRow row =>
    match m.rootItem.children.get? row with
    | some item =>
      if destRow < m.rootItem.childCount then some (moveEffect destRow item m) else none
    | none => none
  | .copy sourceItem => some (copyEffect sourceItem m)
  | .undo => some (undo m)
  | .redo => some (redo m)

/-- A sequence of operations applied from left to right. -/
def run : EffectStackModel → List Op → Option EffectStackModel
  | m, [] => some m
  | m, op :: ops =>
    match step m op with
    | some m1 => run m1 ops
    | none => none

/-! ## Stating the consistency check -/

/-- The effect nodes of a tree in left-to-right depth-first pre-order. -/
def collectedEffects (root : Item) : List Item :=
  root.preorder.filter (fun n => decide (n.itemType = .Effect))

/-- No node of type `Effect` has children. -/
def effectsAreLeaves (root : Item) : Prop :=
  ∀ n ∈ root.preorder, n.itemType = .Effect → n.childCount = 0

/-- A stack with a group holding one effect, bound to a service that carries
the two filters in tree order. -/
def nestedStack : EffectStackModel :=
  { rootItem := .mk 0 .Group "root" 0 []
      [.mk 1 .Effect "fadein" 11 [] [],
       .mk 2 .Group "group" 0 [] [.mk 3 .Effect "volume" 13 [] []]]
    m_service := some [11, 13]
    m_undoStack := { commands := [], undone := [] }
    detached := []
    nextId := 4
    itemDuration := 1000
    getName := fun s => s
    dataChanged := [] }

/-! ## Stacks of leaf effects -/

/-- Every item of the sequence is a childless item of type `Effect`. -/
def Flat (cs : List Item) : Prop :=
  ∀ c ∈ cs, c.itemType = .Effect ∧ c.children = []

/-- A closure of the undo stack inserts under the root. -/
def FunOk (rootId : Nat) : Fun → Prop
  | .addItem _ parentId => parentId = (rootId : Int)
  | .removeItem _ => True

/-- The items that are alive: those of the stack and those outside the tree. -/
def aliveItems (m : EffectStackModel) : List Item :=
  m.rootItem.children ++ m.detached

/-- The invariant of a stack of leaf effects: every alive item is a childless
effect with an id and a filter of its own, handed out by the model; the
filters of the service are the filters of the children of the root, in order;
the closures of the undo stack insert under the root. -/
structure Inv (m : EffectStackModel) : Prop where
  flat : Flat (aliveItems m)
  rootFresh : m.rootItem.id < m.nextId
  fresh : ∀ c ∈ aliveItems m, c.id < m.nextId ∧ c.filter < m.nextId ∧ c.id ≠ m.rootItem.id
  ids : ((aliveItems m).map Item.id).Nodup
  filters : ((aliveItems m).map Item.filter).Nodup
  service : m.m_service = some (m.rootItem.children.map Item.filter)
  cmds : ∀ c ∈ m.m_undoStack.commands ++ m.m_undoStack.undone,
    FunOk m.rootItem.id c.undo ∧ FunOk m.rootItem.id c.redo

/-- The leaf effects under the root, from left to right: the children of the
root that have no children. -/
def leafEffects (m : EffectStackModel) : List Item :=
  m.rootItem.children.filter (fun c => decide (c.childCount = 0))

/-- A stack of leaf effects: the children of the root are childless effects
with ids and filters of their own, and the filters of the bound service are
the filters of these children, in order. -/
structure StackOfLeaves (m : EffectStackModel) : Prop where
  flat : Flat m.rootItem.children
  ids : (m.rootItem.children.map Item.id).Nodup
  filters : (m.rootItem.children.map Item.filter).Nodup
  service : m.m_service = some (m.rootItem.children.map Item.filter)

/-- A stack of three leaf effects, as built by three calls of `appendEffect`
on the empty stack. -/
def threeEffects : EffectStackModel :=
  appendEffect "c" (appendEffect "b" (appendEffect "a"
    (EffectStackModel.construct (some []) 1000 (fun s => s))))

/-- The first effect of `threeEffects`. -/
def firstEffect : Item := .mk 1 .Effect "a" 1 [] []

/-- The value is a C++ `int`. -/
def isInt32 (x : Int) : Prop := -2147483648 ≤ x ∧ x < 2147483648

/-- What the fade out branch of `adjustFadeLength` writes into the filter of a
fade effect. -/
def withFadeOut (out duration : Int) (c : Item) : Item :=
  c.withProps (propSet (propSet c.props "out" out) "in" (intSub out duration))

/-- The asset id of the audio fade of the given end of the object. -/
def audioFadeId (fromStart : Bool) : String :=
  if fromStart then "fadein" else "fadeout"

/-- The asset id of the video fade of the given end of the object. -/
def videoFadeId (fromStart : Bool) : String :=
  if fromStart then "fade_from_black" else "fade_to_black"

/-- The root has a child whose second data column is `name`. -/
def hasEffect (name : String) (m : EffectStackModel) : Prop :=
  ∃ c ∈ m.rootItem.children, c.assetId = name

/-- The empty stack of an object of duration 1000, bound to a service without
filters. -/
def emptyStack : EffectStackModel :=
  EffectStackModel.construct (some []) 1000 (fun s => s)

/-- A stack whose only effect is the audio fade in. -/
def audioFadeOnly : EffectStackModel := appendEffect "fadein" emptyStack

/-- A stack that holds the video fade in before the audio fade in. -/
def videoBeforeAudio : EffectStackModel :=
  appendEffect "fadein" (appendEffect "fade_from_black" emptyStack)

/-- The second data columns of the children of the root, in order. -/
def assetIds (m : EffectStackModel) : List String :=
  m.rootItem.children.map Item.assetId

/-- A sequence of operations with a move, a removal, a copy, two undos and a
redo. -/
def sampleOps : List Op :=
  [.append "a", .append "b", .append "c", .move 0 2, .remove 1, .copy firstEffect,
   .undo, .undo, .redo]

/-- The stack reached from the empty stack by `sampleOps`. -/
def sampleResult : EffectStackModel :=
  (run emptyStack sampleOps).getD emptyStack

/-! # Theorems -/

/-! ## Facts about the tree -/

theorem preorder_eq (c : Item) : c.preorder = c :: Item.preorderList c.children := by
  cases c with
  | mk i t a f p cs => simp [Item.preorder, Item.children]

theorem preorderList_cons (c : Item) (cs : List Item) :
    Item.preorderList (c :: cs) = c :: (Item.preorderList c.children ++ Item.preorderList cs) := by
  simp [Item.preorderList, preorder_eq]

theorem preorderList_append (xs ys : List Item) :
    Item.preorderList (xs ++ ys) = Item.preorderList xs ++ Item.preorderList ys := by
  induction xs with
  | nil => simp [Item.preorderList]
  | cons c cs ih => simp [Item.preorderList, ih]

theorem size_eq (c : Item) : c.size = 1 + Item.sizeList c.children := by
  cases c with
  | mk i t a f p cs => simp [Item.size, Item.children]

theorem sizeList_append (xs ys : List Item) :
    Item.sizeList (xs ++ ys) = Item.sizeList xs + Item.sizeList ys := by
  induction xs with
  | nil => simp [Item.sizeList]
  | cons c cs ih => simp [Item.sizeList, ih, Nat.add_assoc]

theorem pushChildren_eq (cs stck : List Item) : pushChildren cs stck = cs ++ stck := by
  induction cs with
  | nil => simp [pushChildren]
  | cons c cs ih =>
    simp only [pushChildren, List.foldr_cons, List.cons_append] at ih ⊢
    rw [ih]

theorem dfsLoop_done (fuel : Nat) : ∀ (stck acc : List Item),
    Item.sizeList stck ≤ fuel →
    (∀ n ∈ Item.preorderList stck, n.itemType = .Effect → n.childCount = 0) →
    dfsLoop fuel stck acc =
      .done (acc ++ (Item.preorderList stck).filter (fun n => decide (n.itemType = .Effect))) := by
  induction fuel with
  | zero =>
    intro stck acc hsz _
    cases stck with
    | nil => simp [dfsLoop, Item.preorderList]
    | cons c cs =>
      simp [Item.sizeList, size_eq] at hsz
  | succ fuel ih =>
    intro stck acc hsz hleaf
    cases stck with
    | nil => simp [dfsLoop, Item.preorderList]
    | cons c cs =>
      have hsz1 : 1 + Item.sizeList c.children + Item.sizeList cs ≤ fuel + 1 := by
        simpa [Item.sizeList, size_eq] using hsz
      rw [preorderList_cons] at hleaf
      by_cases ht : c.itemType = .Effect
      · have hc : c.childCount = 0 := hleaf c (by simp) ht
        have hcs : c.children = [] := List.length_eq_zero.mp hc
        have hrest : ∀ n ∈ Item.preorderList cs, n.itemType = .Effect → n.childCount = 0 := by
          intro n hn
          exact hleaf n (by simp [hn])
        rw [dfsLoop]
        simp only [ht, hc, if_true, lt_irrefl, if_false]
        rw [ih cs (acc ++ [c]) (by omega) hrest, preorderList_cons, hcs]
        simp [Item.preorderList, ht]
      · have hrest : ∀ n ∈ Item.preorderList (c.children ++ cs),
            n.itemType = .Effect → n.childCount = 0 := by
          intro n hn
          rw [preorderList_append] at hn
          exact hleaf n (by simpa using Or.inr hn)
        rw [dfsLoop]
        simp only [ht, if_false]
        rw [pushChildren_eq, ih (c.children ++ cs) acc
          (by rw [sizeList_append]; omega) hrest, preorderList_cons, preorderList_append]
        simp [ht]

theorem dfsLoop_fail (fuel : Nat) : ∀ (stck acc : List Item),
    Item.sizeList stck ≤ fuel →
    (∃ n ∈ Item.preorderList stck, n.itemType = .Effect ∧ n.childCount ≠ 0) →
    dfsLoop fuel stck acc = .effectWithChildren := by
  induction fuel with
  | zero =>
    intro stck acc hsz hex
    cases stck with
    | nil => simp [Item.preorderList] at hex
    | cons c cs =>
      simp [Item.sizeList, size_eq] at hsz
  | succ fuel ih =>
    intro stck acc hsz hex
    cases stck with
    | nil => simp [Item.preorderList] at hex
    | cons c cs =>
      have hsz1 : 1 + Item.sizeList c.children + Item.sizeList cs ≤ fuel + 1 := by
        simpa [Item.sizeList, size_eq] using hsz
      rw [preorderList_cons] at hex
      obtain ⟨n, hn, hne, hnc⟩ := hex
      by_cases ht : c.itemType = .Effect
      · by_cases hc : c.childCount = 0
        · have hcs : c.children = [] := List.length_eq_zero.mp hc
          rw [dfsLoop]
          simp only [ht, hc, if_true, lt_irrefl, if_false]
          apply ih cs (acc ++ [c]) (by omega)
          rw [hcs] at hn
          simp only [Item.preorderList, List.nil_append, List.mem_cons] at hn
          rcases hn with rfl | hn
          · exact absurd hc hnc
          · exact ⟨n, hn, hne, hnc⟩
        · rw [dfsLoop]
          have : c.childCount > 0 := Nat.pos_of_ne_zero hc
          simp [ht, this]
      · rw [dfsLoop]
        simp only [ht, if_false]
        rw [pushChildren_eq]
        apply ih (c.children ++ cs) acc (by rw [sizeList_append]; omega)
        rw [preorderList_append]
        simp only [List.mem_cons] at hn
        rcases hn with rfl | hn
        · exact absurd hne ht
        · exact ⟨n, by simpa using hn, hne, hnc⟩

theorem filtersAgree_iff (fs : List Nat) (all : List Item) :
    filtersAgree fs all = true ↔
      ∀ i, i < all.length → fs.get? i = (all.get? i).map Item.filter := by
  simp [filtersAgree, List.all_eq_true]

theorem dfsLoop_root_done (root : Item) (h : effectsAreLeaves root) :
    dfsLoop root.size [root] [] = .done (collectedEffects root) := by
  have h1 := dfsLoop_done root.size [root] [] (by simp [Item.sizeList])
    (by simpa [Item.preorderList] using h)
  simpa [Item.preorderList, collectedEffects] using h1

theorem dfsLoop_root_fail (root : Item) (h : ¬ effectsAreLeaves root) :
    dfsLoop root.size [root] [] = .effectWithChildren := by
  apply dfsLoop_fail root.size [root] [] (by simp [Item.sizeList])
  simp only [effectsAreLeaves, not_forall] at h
  obtain ⟨n, hn, ht, hc⟩ := h
  exact ⟨n, by simpa [Item.preorderList] using hn, ht, hc⟩

/-- C1: for a tree that passes the base tree check, `checkConsistency` returns
true exactly when no node of type `Effect` has children, the filter count of
the bound service is the number of effect nodes in pre-order, and the filter of
the service at every position is the filter of the effect node at that
position; when the service is not bound any more it returns false. -/
theorem checkConsistency_iff (m : EffectStackModel) :
    (∀ fs, m.m_service = some fs →
      (checkConsistency true m = true ↔
        (effectsAreLeaves m.rootItem ∧
          fs.length = (collectedEffects m.rootItem).length ∧
          ∀ i, i < (collectedEffects m.rootItem).length →
            fs.get? i = ((collectedEffects m.rootItem).get? i).map Item.filter))) ∧
    (m.m_service = none → checkConsistency true m = false) := by
  constructor
  · intro fs hfs
    by_cases h : effectsAreLeaves m.rootItem
    · simp only [checkConsistency, dfsLoop_root_done _ h, hfs, h, true_and]
      by_cases hl : fs.length = (collectedEffects m.rootItem).length
      · simp [hl, filtersAgree_iff]
      · simp [hl]
    · simp [checkConsistency, dfsLoop_root_fail _ h, h]
  · intro hnone
    by_cases h : effectsAreLeaves m.rootItem
    · simp [checkConsistency, dfsLoop_root_done _ h, hnone]
    · simp [checkConsistency, dfsLoop_root_fail _ h]

/-- Witness for C1: the check succeeds on `nestedStack`, and the three
conditions hold there. -/
theorem checkConsistency_iff_witness :
    nestedStack.m_service = some [11, 13] ∧
    (checkConsistency true nestedStack = true ↔
      (effectsAreLeaves nestedStack.rootItem ∧
        [11, 13].length = (collectedEffects nestedStack.rootItem).length ∧
        ∀ i, i < (collectedEffects nestedStack.rootItem).length →
          [11, 13].get? i = ((collectedEffects nestedStack.rootItem).get? i).map Item.filter)) ∧
    checkConsistency true nestedStack = true :=
  ⟨rfl, (checkConsistency_iff nestedStack).1 [11, 13] rfl, by decide⟩

/-! ## Stacks of leaf effects -/

theorem leaf_eta (c : Item) (h : c.children = []) :
    c = .mk c.id c.itemType c.assetId c.filter c.props [] := by
  cases c with
  | mk i t a f p cs =>
    simp only [Item.children] at h
    simp [Item.id, Item.itemType, Item.assetId, Item.filter, Item.props, h]

theorem removeChild_leaf (id : Nat) (c : Item) (h : c.children = []) :
    removeChild id c = c := by
  rw [leaf_eta c h]; simp [removeChild, removeChildList]

theorem findItem_leaf (id : Nat) (c : Item) (h : c.children = []) :
    findItem id c = if c.id = id then some c else none := by
  cases c with
  | mk i t a f p cs =>
    simp only [Item.children] at h
    subst h
    simp [findItem, findItemList, Item.id]

theorem rowBelow_leaf (id : Nat) (c : Item) (h : c.children = []) :
    rowBelow id c = none := by
  rw [leaf_eta c h]; simp [rowBelow, rowInList]

theorem parentIdBelow_leaf (id : Nat) (c : Item) (h : c.children = []) :
    parentIdBelow id c = none := by
  rw [leaf_eta c h]; simp [parentIdBelow, parentIdInList]

theorem updateItem_leaf (id : Nat) (g : Item → Item) (c : Item) (h : c.children = []) :
    updateItem id g c = if c.id = id then g c else c := by
  cases c with
  | mk i t a f p cs =>
    simp only [Item.children] at h
    subst h
    simp [updateItem, updateItemList, Item.id]

theorem preorder_leaf (c : Item) (h : c.children = []) : c.preorder = [c] := by
  rw [preorder_eq, h]; simp [Item.preorderList]

theorem findItemList_none (id : Nat) : ∀ (cs : List Item), Flat cs →
    findItemList id cs = none →
    (∀ c ∈ cs, c.id ≠ id) ∧ removeChildList id cs = cs := by
  intro cs
  induction cs with
  | nil => intro _ _; simp [removeChildList]
  | cons c cs ih =>
    intro hflat hfind
    have hc := (hflat c (by simp)).2
    have hflat1 : Flat cs := fun x hx => hflat x (by simp [hx])
    rw [findItemList, findItem_leaf id c hc] at hfind
    by_cases hid : c.id = id
    · simp [hid] at hfind
    · simp only [hid, if_false] at hfind
      obtain ⟨h1, h2⟩ := ih hflat1 hfind
      refine ⟨?_, ?_⟩
      · intro x hx
        rcases List.mem_cons.mp hx with rfl | hx
        · exact hid
        · exact h1 x hx
      · rw [removeChildList]; simp [hid, removeChild_leaf id c hc, h2]

theorem findItemList_some (id : Nat) : ∀ (cs : List Item) (a : Item) (k p : Nat), Flat cs →
    findItemList id cs = some a →
    ∃ l₁ l₂, cs = l₁ ++ a :: l₂ ∧ a.id = id ∧ (∀ c ∈ l₁, c.id ≠ id) ∧
      removeChildList id cs = l₁ ++ l₂ ∧ rowInList id k cs = some (k + l₁.length) ∧
      parentIdInList id p cs = some p := by
  intro cs
  induction cs with
  | nil => intro a k p _ h; simp [findItemList] at h
  | cons c cs ih =>
    intro a k p hflat hfind
    have hc := (hflat c (by simp)).2
    have hflat1 : Flat cs := fun x hx => hflat x (by simp [hx])
    rw [findItemList, findItem_leaf id c hc] at hfind
    by_cases hid : c.id = id
    · simp only [hid, if_true] at hfind
      have hca : c = a := by simpa using hfind
      subst hca
      refine ⟨[], cs, by simp, hid, by simp, ?_, ?_, ?_⟩
      · rw [removeChildList]; simp [hid]
      · rw [rowInList]; simp [hid]
      · rw [parentIdInList]; simp [hid]
    · simp only [hid, if_false] at hfind
      obtain ⟨l₁, l₂, h1, h2, h3, h4, h5, h6⟩ := ih a (k + 1) p hflat1 hfind
      refine ⟨c :: l₁, l₂, by simp [h1], h2, ?_, ?_, ?_, ?_⟩
      · intro x hx
        rcases List.mem_cons.mp hx with rfl | hx
        · exact hid
        · exact h3 x hx
      · rw [removeChildList]; simp [hid, removeChild_leaf id c hc, h4]
      · rw [rowInList]; simp [hid, rowBelow_leaf id c hc, h5]; omega
      · rw [parentIdInList]; simp [hid, parentIdBelow_leaf id c hc, h6]

theorem findItemList_mem (cs : List Item) (a : Item) (hflat : Flat cs)
    (hnd : (cs.map Item.id).Nodup) (ha : a ∈ cs) : findItemList a.id cs = some a := by
  cases hf : findItemList a.id cs with
  | none => exact absurd rfl ((findItemList_none a.id cs hflat hf).1 a ha)
  | some b =>
    obtain ⟨l₁, l₂, h1, h2, -⟩ := findItemList_some a.id cs b 0 0 hflat hf
    have hb : b ∈ cs := by rw [h1]; simp
    have := List.inj_on_of_nodup_map hnd hb ha h2
    rw [this]

theorem updateItemList_flat (id : Nat) (g : Item → Item) : ∀ (cs : List Item), Flat cs →
    updateItemList id g cs = cs.map (fun c => if c.id = id then g c else c) := by
  intro cs
  induction cs with
  | nil => intro _; simp [updateItemList]
  | cons c cs ih =>
    intro hflat
    have hc := (hflat c (by simp)).2
    have hflat1 : Flat cs := fun x hx => hflat x (by simp [hx])
    rw [updateItemList, updateItem_leaf id g c hc, ih hflat1]
    simp

/-! ## The primitives on a stack of leaf effects -/

@[simp] theorem withChildren_children (r : Item) (cs : List Item) :
    (r.withChildren cs).children = cs := by
  cases r; rfl

@[simp] theorem withChildren_id (r : Item) (cs : List Item) : (r.withChildren cs).id = r.id := by
  cases r; rfl

@[simp] theorem withChildren_withChildren (r : Item) (cs ds : List Item) :
    (r.withChildren cs).withChildren ds = r.withChildren ds := by
  cases r; rfl

@[simp] theorem withProps_withProps (c : Item) (ps qs : List (String × Int)) :
    (c.withProps ps).withProps qs = c.withProps qs := by
  cases c; rfl

@[simp] theorem withProps_id (c : Item) (ps : List (String × Int)) : (c.withProps ps).id = c.id := by
  cases c; rfl

@[simp] theorem withProps_filter (c : Item) (ps : List (String × Int)) :
    (c.withProps ps).filter = c.filter := by
  cases c; rfl

@[simp] theorem withProps_children (c : Item) (ps : List (String × Int)) :
    (c.withProps ps).children = c.children := by
  cases c; rfl

@[simp] theorem withProps_itemType (c : Item) (ps : List (String × Int)) :
    (c.withProps ps).itemType = c.itemType := by
  cases c; rfl

@[simp] theorem withProps_assetId (c : Item) (ps : List (String × Int)) :
    (c.withProps ps).assetId = c.assetId := by
  cases c; rfl

@[simp] theorem withProps_props (c : Item) (ps : List (String × Int)) :
    (c.withProps ps).props = ps := by
  cases c; rfl

theorem removeChild_root (id : Nat) (r : Item) :
    removeChild id r = r.withChildren (removeChildList id r.children) := by
  cases r; simp [removeChild, Item.withChildren, Item.children]

theorem appendChildTo_root (child : Item) (r : Item) :
    appendChildTo r.id child r = r.withChildren (r.children ++ [child]) := by
  cases r; simp [appendChildTo, Item.withChildren, Item.children, Item.id]

theorem updateItem_root (id : Nat) (g : Item → Item) (r : Item) (h : r.id ≠ id) :
    updateItem id g r = r.withChildren (updateItemList id g r.children) := by
  cases r with
  | mk i t a f p cs =>
    simp only [Item.id] at h
    simp [updateItem, Item.withChildren, Item.children, h]

theorem findItem_root (r : Item) : findItem r.id r = some r := by
  cases r; simp [findItem, Item.id]

theorem rowBelow_root (id : Nat) (r : Item) : rowBelow id r = rowInList id 0 r.children := by
  cases r; simp [rowBelow, Item.children]

theorem parentIdBelow_root (id : Nat) (r : Item) :
    parentIdBelow id r = parentIdInList id r.id r.children := by
  cases r; simp [parentIdBelow, Item.children, Item.id]

@[simp] theorem registerItem_rootItem (item : Item) (m : EffectStackModel) :
    (registerItem item m).rootItem = m.rootItem := by
  unfold registerItem; split <;> [rfl; (dsimp only; split <;> rfl)]

@[simp] theorem registerItem_detached (item : Item) (m : EffectStackModel) :
    (registerItem item m).detached = m.detached := by
  unfold registerItem; split <;> [rfl; (dsimp only; split <;> rfl)]

@[simp] theorem registerItem_nextId (item : Item) (m : EffectStackModel) :
    (registerItem item m).nextId = m.nextId := by
  unfold registerItem; split <;> [rfl; (dsimp only; split <;> rfl)]

@[simp] theorem registerItem_undoStack (item : Item) (m : EffectStackModel) :
    (registerItem item m).m_undoStack = m.m_undoStack := by
  unfold registerItem; split <;> [rfl; (dsimp only; split <;> rfl)]

@[simp] theorem registerItem_itemDuration (item : Item) (m : EffectStackModel) :
    (registerItem item m).itemDuration = m.itemDuration := by
  unfold registerItem; split <;> [rfl; (dsimp only; split <;> rfl)]

@[simp] theorem registerItem_getName (item : Item) (m : EffectStackModel) :
    (registerItem item m).getName = m.getName := by
  unfold registerItem; split <;> [rfl; (dsimp only; split <;> rfl)]

theorem registerItem_service (item : Item) (m : EffectStackModel) (h : item.id ≠ m.rootItem.id) :
    (registerItem item m).m_service = plant item m.m_service := by
  unfold registerItem; rw [if_neg h]; dsimp only; split <;> rfl

theorem registerSelf_leaf (item : Item) (m : EffectStackModel) (h : item.children = []) :
    registerSelf item m = registerItem item m := by
  simp [registerSelf, preorder_leaf item h]

theorem deregisterSelf_leaf (item : Item) (m : EffectStackModel) (h : item.children = []) :
    deregisterSelf item m = deregisterItem item m := by
  simp [deregisterSelf, preorder_leaf item h]

theorem plant_effect (item : Item) (fs : List Nat) (h : item.itemType = .Effect) :
    plant item (some fs) = some (fs ++ [item.filter]) := by
  simp [plant, h]

theorem unplant_effect (item : Item) (fs : List Nat) (h : item.itemType = .Effect) :
    unplant item (some fs) = some (fs.erase item.filter) := by
  simp [unplant, h]

/-- Erasing the filter of the item in the middle of a sequence with distinct
filters. -/
theorem erase_middle (l₁ l₂ : List Item) (a : Item)
    (hnd : ((l₁ ++ a :: l₂).map Item.filter).Nodup) :
    ((l₁ ++ a :: l₂).map Item.filter).erase a.filter = (l₁ ++ l₂).map Item.filter := by
  have hnot : a.filter ∉ l₁.map Item.filter := by
    intro hmem
    simp only [List.map_append, List.map_cons] at hnd
    have := (List.nodup_append.mp hnd).2.2
    exact this hmem (by simp)
  simp only [List.map_append, List.map_cons]
  rw [List.erase_append_right _ hnot]
  simp

theorem Inv.of_perm {m m1 : EffectStackModel} (h : Inv m)
    (hroot : m1.rootItem.id = m.rootItem.id) (hnext : m1.nextId = m.nextId)
    (hperm : (aliveItems m1).Perm (aliveItems m))
    (hsvc : m1.m_service = some (m1.rootItem.children.map Item.filter))
    (hundo : m1.m_undoStack = m.m_undoStack) : Inv m1 where
  flat := fun c hc => h.flat c (hperm.mem_iff.mp hc)
  rootFresh := by rw [hroot, hnext]; exact h.rootFresh
  fresh := fun c hc => by rw [hroot, hnext]; exact h.fresh c (hperm.mem_iff.mp hc)
  ids := ((hperm.map Item.id).nodup_iff).mpr h.ids
  filters := ((hperm.map Item.filter).nodup_iff).mpr h.filters
  service := hsvc
  cmds := by rw [hundo, hroot]; exact h.cmds

theorem Inv.flatChildren {m : EffectStackModel} (h : Inv m) : Flat m.rootItem.children :=
  fun c hc => h.flat c (by simp [aliveItems, hc])

theorem Inv.filtersChildren {m : EffectStackModel} (h : Inv m) :
    (m.rootItem.children.map Item.filter).Nodup := by
  have := h.filters
  simp only [aliveItems, List.map_append] at this
  exact (List.nodup_append.mp this).1

theorem Inv.idsChildren {m : EffectStackModel} (h : Inv m) :
    (m.rootItem.children.map Item.id).Nodup := by
  have := h.ids
  simp only [aliveItems, List.map_append] at this
  exact (List.nodup_append.mp this).1

theorem detachItem_none (id : Nat) (m : EffectStackModel)
    (hf : findItemList id m.rootItem.children = none) : detachItem id m = none := by
  simp [detachItem, hf]

theorem detachItem_some (id : Nat) (m : EffectStackModel) (h : Inv m) (a : Item)
    (l₁ l₂ : List Item) (hf : findItemList id m.rootItem.children = some a)
    (hcs : m.rootItem.children = l₁ ++ a :: l₂)
    (hrm : removeChildList id m.rootItem.children = l₁ ++ l₂) :
    detachItem id m = some (a,
      { m with
        rootItem := m.rootItem.withChildren (l₁ ++ l₂)
        m_service := some ((l₁ ++ l₂).map Item.filter) }) := by
  have ha : a ∈ aliveItems m := by simp [aliveItems, hcs]
  have hleaf := (h.flat a ha).2
  have htype := (h.flat a ha).1
  have hroot := (h.fresh a ha).2.2
  have hnd := h.filtersChildren
  rw [hcs] at hnd
  simp only [detachItem, hf, deregisterSelf_leaf _ _ hleaf, deregisterItem, removeChild_root,
    withChildren_id, hroot, if_false, hrm, h.service, unplant_effect _ _ htype]
  rw [hcs, erase_middle l₁ l₂ a hnd]

theorem removeItem_lambda_inv (id : Nat) (m : EffectStackModel) (h : Inv m) :
    Inv (removeItem_lambda id m).2 ∧
    (removeItem_lambda id m).2.rootItem.id = m.rootItem.id ∧
    (removeItem_lambda id m).2.m_undoStack = m.m_undoStack := by
  cases hf : findItemList id m.rootItem.children with
  | none =>
    have key : removeItem_lambda id m = (false, m) := by
      simp only [removeItem_lambda, detachItem_none id m hf]
    rw [key]
    dsimp only
    exact ⟨h, rfl, rfl⟩
  | some a =>
    obtain ⟨l₁, l₂, hcs, -, -, hrm, -, -⟩ :=
      findItemList_some id m.rootItem.children a 0 0 h.flatChildren hf
    have key : removeItem_lambda id m = (true,
        { m with
          rootItem := m.rootItem.withChildren (l₁ ++ l₂)
          m_service := some ((l₁ ++ l₂).map Item.filter)
          detached := a :: m.detached }) := by
      simp only [removeItem_lambda, detachItem_some id m h a l₁ l₂ hf hcs hrm]
    rw [key]
    dsimp only
    refine ⟨?_, withChildren_id _ _, rfl⟩
    refine Inv.of_perm h (withChildren_id _ _) rfl ?_ (by first | rfl | simp) rfl
    simp only [aliveItems, withChildren_children, hcs, List.append_assoc, List.cons_append]
    exact List.Perm.append_left l₁ List.perm_middle

/-- A sequence with distinct ids is its item `a` followed by the others. -/
theorem perm_cons_filter_id (a : Item) : ∀ (l : List Item), (l.map Item.id).Nodup → a ∈ l →
    l.Perm (a :: l.filter (fun c => decide (c.id ≠ a.id))) := by
  intro l
  induction l with
  | nil => intro _ h; simp at h
  | cons b l ih =>
    intro hnd hmem
    simp only [List.map_cons, List.nodup_cons] at hnd
    by_cases hb : b.id = a.id
    · have hab : a ∉ l := by
        intro hal
        exact hnd.1 (by rw [hb]; exact List.mem_map_of_mem _ hal)
      have hba : a = b := by
        rcases List.mem_cons.mp hmem with h1 | h1
        · exact h1
        · exact absurd h1 hab
      subst hba
      have hall : l.filter (fun c => decide (c.id ≠ a.id)) = l := by
        apply List.filter_eq_self.mpr
        intro c hc
        simp only [ne_eq, decide_not, Bool.not_eq_eq_eq_not, Bool.not_true, decide_eq_false_iff_not]
        intro hca
        exact hnd.1 (by rw [← hca]; exact List.mem_map_of_mem _ hc)
      rw [List.filter_cons_of_neg (by first | rfl | simp), hall]
    · have hal : a ∈ l := by
        rcases List.mem_cons.mp hmem with h1 | h1
        · exact absurd (by rw [h1]) hb
        · exact h1
      have := ih hnd.2 hal
      rw [List.filter_cons_of_pos (by simpa using hb)]
      exact (List.Perm.cons b this).trans (List.Perm.swap a b _)

theorem addItem_lambda_inv (id : Nat) (m : EffectStackModel) (h : Inv m) :
    Inv (addItem_lambda id (m.rootItem.id : Int) m).2 ∧
    (addItem_lambda id (m.rootItem.id : Int) m).2.rootItem.id = m.rootItem.id ∧
    (addItem_lambda id (m.rootItem.id : Int) m).2.m_undoStack = m.m_undoStack := by
  have hpar : ¬ ((m.rootItem.id : Int) ≠ -1 ∧ ((m.rootItem.id : Int) < 0 ∨
      (findItem (m.rootItem.id : Int).toNat m.rootItem).isNone)) := by
    simp [findItem_root]
  have hne : ¬ ((m.rootItem.id : Int) = -1) := by omega
  cases hd : m.detached.find? (fun c => decide (c.id = id)) with
  | some a =>
    have hmem : a ∈ m.detached := List.mem_of_find?_eq_some hd
    have haid : a.id = id := by simpa using List.find?_some hd
    have ha : a ∈ aliveItems m := by simp [aliveItems, hmem]
    have hleaf := (h.flat a ha).2
    have htype := (h.flat a ha).1
    have hroot := (h.fresh a ha).2.2
    have key : addItem_lambda id (m.rootItem.id : Int) m = (true, registerItem a
        { m with
          detached := m.detached.filter (fun c => decide (c.id ≠ id))
          rootItem := m.rootItem.withChildren (m.rootItem.children ++ [a]) }) := by
      unfold addItem_lambda
      rw [if_neg hpar]
      simp only [hd, hne, if_false, Int.toNat_ofNat, appendChildTo_root,
        registerSelf_leaf _ _ hleaf]
    rw [key]
    dsimp only
    refine ⟨?_, by first | rfl | simp, by first | rfl | simp⟩
    have hndd : (m.detached.map Item.id).Nodup := by
      have := h.ids
      simp only [aliveItems, List.map_append] at this
      exact (List.nodup_append.mp this).2.1
    refine Inv.of_perm h (by first | rfl | simp) (by first | rfl | simp) ?_ ?_ (by first | rfl | simp)
    · simp only [aliveItems, registerItem_rootItem, registerItem_detached,
        withChildren_children, List.append_assoc, List.singleton_append]
      apply List.Perm.append_left
      rw [← haid]
      exact (perm_cons_filter_id a m.detached hndd hmem).symm
    · rw [registerItem_service _ _ (by simpa using hroot)]
      simp [h.service, plant_effect _ _ htype]
  | none =>
    cases hf : findItemList id m.rootItem.children with
    | none =>
      have key : addItem_lambda id (m.rootItem.id : Int) m = (false, m) := by
        unfold addItem_lambda
        rw [if_neg hpar]
        simp only [hd, detachItem_none id m hf]
      rw [key]
      dsimp only
      exact ⟨h, rfl, rfl⟩
    | some a =>
      obtain ⟨l₁, l₂, hcs, -, -, hrm, -, -⟩ :=
        findItemList_some id m.rootItem.children a 0 0 h.flatChildren hf
      have ha : a ∈ aliveItems m := by simp [aliveItems, hcs]
      have hleaf := (h.flat a ha).2
      have htype := (h.flat a ha).1
      have hroot := (h.fresh a ha).2.2
      have hr : (m.rootItem.withChildren (l₁ ++ l₂)).id = m.rootItem.id := by simp
      have key : addItem_lambda id (m.rootItem.id : Int) m = (true, registerItem a
          { m with
            rootItem := m.rootItem.withChildren (l₁ ++ l₂ ++ [a])
            m_service := some ((l₁ ++ l₂).map Item.filter) }) := by
        unfold addItem_lambda
        rw [if_neg hpar]
        simp only [hd, detachItem_some id m h a l₁ l₂ hf hcs hrm, hne, if_false,
          Int.toNat_ofNat, registerSelf_leaf _ _ hleaf]
        rw [← hr, appendChildTo_root]
        simp
      rw [key]
      dsimp only
      refine ⟨?_, by first | rfl | simp, by first | rfl | simp⟩
      refine Inv.of_perm h (by first | rfl | simp) (by first | rfl | simp) ?_ ?_ (by first | rfl | simp)
      · simp only [aliveItems, registerItem_rootItem, registerItem_detached,
          withChildren_children, hcs, List.append_assoc, List.singleton_append,
          List.cons_append]
        apply List.Perm.append_left
        simp
      · rw [registerItem_service _ _ (by simpa using hroot)]
        simp [plant_effect _ _ htype]

theorem Fun.closure_inv (f : Fun) (m : EffectStackModel) (h : Inv m) (hf : FunOk m.rootItem.id f) :
    Inv (f.run m).2 ∧ (f.run m).2.rootItem.id = m.rootItem.id ∧
    (f.run m).2.m_undoStack = m.m_undoStack := by
  cases f with
  | addItem id parentId =>
    simp only [FunOk] at hf
    subst hf
    exact addItem_lambda_inv id m h
  | removeItem id => exact removeItem_lambda_inv id m h

/-! ## Moving an effect -/

theorem Inv.stackOfLeaves {m : EffectStackModel} (h : Inv m) : StackOfLeaves m :=
  ⟨h.flatChildren, h.idsChildren, h.filtersChildren, h.service⟩

theorem unplantRows_flat : ∀ (es : List Item) (fs : List Nat) (acc : List Item), Flat es →
    unplantRows es (some fs) acc = (some (fs.diff (es.map Item.filter)), acc ++ es) := by
  intro es
  induction es with
  | nil => intro fs acc _; simp [unplantRows]
  | cons e es ih =>
    intro fs acc hflat
    have he := hflat e (by simp)
    have hflat1 : Flat es := fun x hx => hflat x (by simp [hx])
    have hc : ¬ (e.childCount > 0) := by simp [Item.childCount, he.2]
    rw [unplantRows, if_neg hc, unplant_effect _ _ he.1, ih _ _ hflat1]
    simp

theorem plantAll_flat : ∀ (es : List Item) (fs : List Nat), Flat es →
    plantAll es (some fs) = some (fs ++ es.map Item.filter) := by
  intro es
  induction es with
  | nil => intro fs _; simp [plantAll]
  | cons e es ih =>
    intro fs hflat
    have he := hflat e (by simp)
    have hflat1 : Flat es := fun x hx => hflat x (by simp [hx])
    rw [plantAll, plant_effect _ _ he.1, ih _ hflat1]
    simp

theorem diff_append_right_nodup (xs ys : List Nat) (h : (xs ++ ys).Nodup) :
    (xs ++ ys).diff ys = xs := by
  rw [h.diff_eq_filter, List.filter_append]
  have hd := List.nodup_append.mp h
  have h1 : xs.filter (fun x => decide (x ∉ ys)) = xs := by
    apply List.filter_eq_self.mpr
    intro a ha
    simp only [decide_not, Bool.not_eq_eq_eq_not, Bool.not_true, decide_eq_false_iff_not]
    exact fun hy => hd.2.2 ha hy
  have h2 : ys.filter (fun x => decide (x ∉ ys)) = [] := by
    apply List.filter_eq_nil_iff.mpr
    intro a ha
    simp [ha]
  rw [h1, h2]; simp

theorem rowInList_last (id : Nat) : ∀ (init : List Item) (e : Item) (k : Nat),
    Flat init → (∀ c ∈ init, c.id ≠ id) → e.id = id →
    rowInList id k (init ++ [e]) = some (k + init.length) := by
  intro init
  induction init with
  | nil => intro e k _ _ he; simp [rowInList, he]
  | cons c cs ih =>
    intro e k hflat hne he
    have hc := (hflat c (by simp)).2
    have hflat1 : Flat cs := fun x hx => hflat x (by simp [hx])
    have hcid : c.id ≠ id := hne c (by simp)
    rw [List.cons_append, rowInList, if_neg hcid, rowBelow_leaf id c hc]
    simp only
    rw [ih e (k + 1) hflat1 (fun x hx => hne x (by simp [hx])) he]
    simp; omega

/-- What `moveEffect` does on a stack of leaf effects: the item is spliced in at
`destRow`, the service carries the filters of the new child sequence, and the
signal goes from the former row of the item to the last row. -/
theorem moveEffect_eq (destRow : Nat) (item : Item) (m : EffectStackModel)
    (h : StackOfLeaves m) (l₁ l₂ : List Item) (hcs : m.rootItem.children = l₁ ++ item :: l₂)
    (hd : destRow ≤ (l₁ ++ l₂).length) :
    moveEffect destRow item m =
      { m with
        rootItem := m.rootItem.withChildren
          ((l₁ ++ l₂).take destRow ++ item :: (l₁ ++ l₂).drop destRow)
        m_service := some (((l₁ ++ l₂).take destRow ++ item :: (l₁ ++ l₂).drop destRow).map
          Item.filter)
        dataChanged := (some l₁.length, some (l₁ ++ l₂).length) :: m.dataChanged } := by
  have hmem : item ∈ m.rootItem.children := by rw [hcs]; simp
  have hitem := h.flat item hmem
  have hc : ¬ (item.childCount > 0) := by simp [Item.childCount, hitem.2]
  have hfind := findItemList_mem _ item h.flat h.ids hmem
  have hids := h.ids
  rw [hcs] at hids
  have hno1 : ∀ c ∈ l₁, c.id ≠ item.id := by
    intro c hc1 heq
    simp only [List.map_append, List.map_cons] at hids
    exact (List.nodup_append.mp hids).2.2 (List.mem_map_of_mem _ hc1) (by simp [heq])
  have hflatAll : Flat (l₁ ++ item :: l₂) := by rw [← hcs]; exact h.flat
  have hflat1 : Flat l₁ := fun x hx => hflatAll x (by simp [hx])
  have hflat2 : Flat l₂ := fun x hx => hflatAll x (by simp [hx])
  have hflatL : Flat (l₁ ++ l₂) := fun x hx => hflatAll x (by
    rcases List.mem_append.mp hx with h1 | h1 <;> simp [h1])
  -- the tree
  have hrow : rowInList item.id 0 (l₁ ++ item :: l₂) = some l₁.length := by
    obtain ⟨k₁, k₂, e1, -, e3, -, e5, -⟩ :=
      findItemList_some item.id (l₁ ++ item :: l₂) item 0 0 hflatAll (by rw [← hcs]; exact hfind)
    have hlen : k₁ = l₁ := by
      have hk := List.append_eq_append_iff.mp e1
      rcases hk with ⟨a', ha1, ha2⟩ | ⟨c', hc1, hc2⟩
      · cases a' with
        | nil => simpa using ha1
        | cons x xs =>
          simp only [List.cons_append, List.cons.injEq] at ha2
          exact absurd rfl (e3 item (by rw [ha1, ← ha2.1]; simp))
      · cases c' with
        | nil => simpa using hc1.symm
        | cons x xs =>
          simp only [List.cons_append, List.cons.injEq] at hc2
          exact absurd rfl (hno1 item (by rw [hc1, ← hc2.1]; simp))
    rw [e5, hlen]; simp
  have hrm : removeChildList item.id (l₁ ++ item :: l₂) = l₁ ++ l₂ := by
    obtain ⟨k₁, k₂, e1, -, e3, e4, -, -⟩ :=
      findItemList_some item.id (l₁ ++ item :: l₂) item 0 0 hflatAll (by rw [← hcs]; exact hfind)
    have hk := List.append_eq_append_iff.mp e1
    rcases hk with ⟨a', ha1, ha2⟩ | ⟨c', hc1, hc2⟩
    · cases a' with
      | nil =>
        simp only [List.append_nil] at ha1
        simp only [List.nil_append, List.cons.injEq, true_and] at ha2
        rw [e4, ha1, ha2]
      | cons x xs =>
        simp only [List.cons_append, List.cons.injEq] at ha2
        exact absurd rfl (e3 item (by rw [ha1, ← ha2.1]; simp))
    · cases c' with
      | nil =>
        simp only [List.append_nil] at hc1
        simp only [List.nil_append, List.cons.injEq, true_and] at hc2
        rw [e4, hc1, hc2]
      | cons x xs =>
        simp only [List.cons_append, List.cons.injEq] at hc2
        exact absurd rfl (hno1 item (by rw [hc1, ← hc2.1]; simp))
  have htake : ((l₁ ++ l₂).take destRow).length = destRow := by
    rw [List.length_take]; omega
  have hdrop : (List.take destRow (l₁ ++ l₂) ++ item :: List.drop destRow (l₁ ++ l₂)).drop destRow
      = item :: List.drop destRow (l₁ ++ l₂) := by
    rw [List.drop_append_of_le_length (by omega), List.drop_eq_nil_of_le (by omega)]
    simp
  have hflatE : Flat (item :: List.drop destRow (l₁ ++ l₂)) := by
    intro x hx
    rcases List.mem_cons.mp hx with rfl | hx
    · exact hitem
    · exact hflatL x (List.mem_of_mem_drop hx)
  -- the service
  have hfilters := h.filters
  rw [hcs] at hfilters
  have hndL : ((l₁ ++ l₂).map Item.filter).Nodup := by
    rw [← erase_middle l₁ l₂ item hfilters]
    exact hfilters.erase _
  have hdiff : ((l₁ ++ item :: l₂).map Item.filter).diff
      ((item :: List.drop destRow (l₁ ++ l₂)).map Item.filter)
      = (List.take destRow (l₁ ++ l₂)).map Item.filter := by
    rw [List.map_cons, List.diff_cons, erase_middle l₁ l₂ item hfilters]
    have hsplit : (l₁ ++ l₂).map Item.filter =
        (List.take destRow (l₁ ++ l₂)).map Item.filter ++
          (List.drop destRow (l₁ ++ l₂)).map Item.filter := by
      rw [← List.map_append, List.take_append_drop]
    have hnd2 := hndL
    rw [hsplit] at hnd2
    conv_lhs => rw [hsplit]
    exact diff_append_right_nodup _ _ hnd2
  -- the last replanted effect
  have hlast : ∀ eff, (item :: List.drop destRow (l₁ ++ l₂)).getLast? = some eff →
      rowInList eff.id 0 (List.take destRow (l₁ ++ l₂) ++ item :: List.drop destRow (l₁ ++ l₂))
        = some (l₁ ++ l₂).length := by
    intro eff heff
    have hE := List.dropLast_append_getLast? eff heff
    have hcs1 : List.take destRow (l₁ ++ l₂) ++ item :: List.drop destRow (l₁ ++ l₂) =
        (List.take destRow (l₁ ++ l₂) ++ (item :: List.drop destRow (l₁ ++ l₂)).dropLast)
          ++ [eff] := by
      rw [List.append_assoc, hE]
    have hperm : (List.take destRow (l₁ ++ l₂) ++ item :: List.drop destRow (l₁ ++ l₂)).Perm
        (l₁ ++ item :: l₂) := by
      refine (List.perm_middle).trans (List.Perm.trans ?_ (List.perm_middle).symm)
      rw [List.take_append_drop]
    have hnd1 : ((List.take destRow (l₁ ++ l₂) ++ item :: List.drop destRow (l₁ ++ l₂)).map
        Item.id).Nodup := ((hperm.map Item.id).nodup_iff).mpr hids
    have hflat3 : Flat (List.take destRow (l₁ ++ l₂) ++ item :: List.drop destRow (l₁ ++ l₂)) :=
      fun x hx => hflatAll x (hperm.mem_iff.mp hx)
    rw [hcs1] at hnd1 hflat3 ⊢
    have hinit : ∀ c ∈ List.take destRow (l₁ ++ l₂) ++
        (item :: List.drop destRow (l₁ ++ l₂)).dropLast, c.id ≠ eff.id := by
      intro c hc1 heq
      rw [List.map_append] at hnd1
      exact (List.nodup_append.mp hnd1).2.2 (List.mem_map_of_mem _ hc1) (by simp [heq])
    rw [rowInList_last eff.id _ eff 0 (fun x hx => hflat3 x (List.mem_append_left _ hx))
      hinit rfl]
    have hl : (List.take destRow (l₁ ++ l₂) ++
        (item :: List.drop destRow (l₁ ++ l₂)).dropLast).length = (l₁ ++ l₂).length := by
      rw [List.length_append, htake, List.length_dropLast, List.length_cons, List.length_drop]
      omega
    rw [hl]; simp
  unfold moveEffect
  rw [if_neg hc]
  simp only [getIndexFromItem, rowBelow_root, moveChild, removeChild_root, withChildren_children,
    withChildren_withChildren, hcs, hrow, hrm, hdrop, h.service,
    unplantRows_flat _ _ _ hflatE, plantAll_flat _ _ hflatE, hdiff, List.nil_append]
  cases hgl : (item :: List.drop destRow (l₁ ++ l₂)).getLast? with
  | none => simp at hgl
  | some eff =>
    simp only [hlast eff hgl]
    simp

theorem split_at_row (cs : List Item) (row : Nat) (item : Item)
    (h : cs.get? row = some item) :
    cs = cs.take row ++ item :: cs.drop (row + 1) ∧ (cs.take row).length = row ∧
      row < cs.length := by
  have hlt : row < cs.length := by
    by_contra hge
    rw [List.get?_eq_none.mpr (by omega)] at h
    exact absurd h (by simp)
  have hget : cs[row] = item := by
    rw [List.get?_eq_getElem? , List.getElem?_eq_getElem hlt] at h
    simpa using h
  refine ⟨?_, by rw [List.length_take]; omega, hlt⟩
  rw [← hget, ← List.drop_eq_getElem_cons hlt, List.take_append_drop]

theorem moveEffect_stackOfLeaves (destRow : Nat) (item : Item) (m : EffectStackModel)
    (h : StackOfLeaves m) (l₁ l₂ : List Item) (hcs : m.rootItem.children = l₁ ++ item :: l₂)
    (hd : destRow ≤ (l₁ ++ l₂).length) : StackOfLeaves (moveEffect destRow item m) := by
  rw [moveEffect_eq destRow item m h l₁ l₂ hcs hd]
  have hperm : (List.take destRow (l₁ ++ l₂) ++ item :: List.drop destRow (l₁ ++ l₂)).Perm
      m.rootItem.children := by
    rw [hcs]
    refine (List.perm_middle).trans (List.Perm.trans ?_ (List.perm_middle).symm)
    rw [List.take_append_drop]
  refine ⟨?_, ?_, ?_, ?_⟩
  · intro c hc
    simp only [withChildren_children] at hc
    exact h.flat c (hperm.mem_iff.mp hc)
  · simp only [withChildren_children]
    exact ((hperm.map Item.id).nodup_iff).mpr h.ids
  · simp only [withChildren_children]
    exact ((hperm.map Item.filter).nodup_iff).mpr h.filters
  · simp only [withChildren_children]

/-- C3: on a stack of leaf effects, a second `moveEffect(destRow, item)` right
after the first one leaves the child order of the root and the filter order of
the service as they were after the first call; and `moveEffect` to the row the
item already has changes neither order. -/
theorem moveEffect_idempotent (m : EffectStackModel) (h : StackOfLeaves m)
    (row destRow : Nat) (item : Item) (hitem : m.rootItem.children.get? row = some item)
    (hdest : destRow < m.rootItem.childCount) :
    (moveEffect destRow item (moveEffect destRow item m)).rootItem.children =
        (moveEffect destRow item m).rootItem.children ∧
      (moveEffect destRow item (moveEffect destRow item m)).m_service =
        (moveEffect destRow item m).m_service ∧
      (destRow = row →
        (moveEffect destRow item m).rootItem.children = m.rootItem.children ∧
        (moveEffect destRow item m).m_service = m.m_service) := by
  obtain ⟨hcs, hlen, hlt⟩ := split_at_row _ row item hitem
  generalize hl₁ : m.rootItem.children.take row = l₁ at hcs hlen
  generalize hl₂ : m.rootItem.children.drop (row + 1) = l₂ at hcs
  have hn : m.rootItem.childCount = (l₁ ++ l₂).length + 1 := by
    simp only [Item.childCount]
    rw [hcs]; simp; omega
  have hd : destRow ≤ (l₁ ++ l₂).length := by omega
  have h1 := moveEffect_stackOfLeaves destRow item m h l₁ l₂ hcs hd
  have e1 := moveEffect_eq destRow item m h l₁ l₂ hcs hd
  have hcs1 : (moveEffect destRow item m).rootItem.children =
      List.take destRow (l₁ ++ l₂) ++ item :: List.drop destRow (l₁ ++ l₂) := by
    rw [e1]; simp
  have htd : List.take destRow (l₁ ++ l₂) ++ List.drop destRow (l₁ ++ l₂) = l₁ ++ l₂ :=
    List.take_append_drop _ _
  have e2 := moveEffect_eq destRow item (moveEffect destRow item m) h1 _ _ hcs1
    (by rw [htd]; exact hd)
  rw [htd] at e2
  refine ⟨?_, ?_, ?_⟩
  · rw [e2, hcs1]; simp
  · rw [e2]
    simp only
    rw [e1]
  · intro heq
    have ht : List.take destRow (l₁ ++ l₂) = l₁ := by
      rw [heq, ← hlen]; simp
    have hdr : List.drop destRow (l₁ ++ l₂) = l₂ := by
      rw [heq, ← hlen]; simp
    rw [e1]
    simp only [withChildren_children, ht, hdr]
    exact ⟨hcs.symm, by rw [h.service, hcs]⟩

/-- The amended C8: on a stack of leaf effects, `moveEffect(newRow, item)` for the
item of row `oldRow` emits one `dataChanged` signal; its end row is the last
row of the root; when `oldRow ≤ newRow` its start row is `oldRow`. -/
theorem moveEffect_dataChanged (m : EffectStackModel) (h : StackOfLeaves m)
    (oldRow newRow : Nat) (item : Item) (hitem : m.rootItem.children.get? oldRow = some item)
    (hnew : newRow < m.rootItem.childCount) :
    ∃ start, (moveEffect newRow item m).dataChanged =
        (start, some (m.rootItem.childCount - 1)) :: m.dataChanged ∧
      (oldRow ≤ newRow → start = some oldRow) := by
  obtain ⟨hcs, hlen, hlt⟩ := split_at_row _ oldRow item hitem
  generalize hl₁ : m.rootItem.children.take oldRow = l₁ at hcs hlen
  generalize hl₂ : m.rootItem.children.drop (oldRow + 1) = l₂ at hcs
  have hn : m.rootItem.childCount = (l₁ ++ l₂).length + 1 := by
    simp only [Item.childCount]
    rw [hcs]; simp; omega
  have hd : newRow ≤ (l₁ ++ l₂).length := by omega
  refine ⟨some oldRow, ?_, fun _ => rfl⟩
  rw [moveEffect_eq newRow item m h l₁ l₂ hcs hd, hn, hlen]
  simp

/-! ## The invariant along sequences of operations -/

theorem construct_inv (effectId : String) (m : EffectStackModel) (h : Inv m) :
    Inv (EffectItemModel.construct effectId m).2 := by
  have hlt : ∀ c ∈ aliveItems m, c.id < m.nextId ∧ c.filter < m.nextId := fun c hc =>
    ⟨(h.fresh c hc).1, (h.fresh c hc).2.1⟩
  have hperm : (m.rootItem.children ++
      Item.mk m.nextId .Effect effectId m.nextId [] [] :: m.detached).Perm
      (Item.mk m.nextId .Effect effectId m.nextId [] [] :: aliveItems m) := List.perm_middle
  refine ⟨?_, ?_, ?_, ?_, ?_, ?_, ?_⟩
  · intro c hc
    rcases List.mem_cons.mp (hperm.mem_iff.mp hc) with rfl | hc
    · exact ⟨rfl, rfl⟩
    · exact h.flat c hc
  · exact Nat.lt_succ_of_lt h.rootFresh
  · intro c hc
    rcases List.mem_cons.mp (hperm.mem_iff.mp hc) with rfl | hc
    · refine ⟨Nat.lt_succ_self _, Nat.lt_succ_self _, ?_⟩
      exact Nat.ne_of_gt h.rootFresh
    · exact ⟨Nat.lt_succ_of_lt (h.fresh c hc).1, Nat.lt_succ_of_lt (h.fresh c hc).2.1,
        (h.fresh c hc).2.2⟩
  · refine ((hperm.map Item.id).nodup_iff).mpr ?_
    simp only [List.map_cons, List.nodup_cons]
    refine ⟨?_, h.ids⟩
    intro hmem
    obtain ⟨c, hc, hcid⟩ := List.mem_map.mp hmem
    have := (hlt c hc).1
    have hcid1 : c.id = m.nextId := hcid
    omega
  · refine ((hperm.map Item.filter).nodup_iff).mpr ?_
    simp only [List.map_cons, List.nodup_cons]
    refine ⟨?_, h.filters⟩
    intro hmem
    obtain ⟨c, hc, hcid⟩ := List.mem_map.mp hmem
    have := (hlt c hc).2
    have hcid1 : c.filter = m.nextId := hcid
    omega
  · exact h.service
  · exact h.cmds

theorem setParameters_inv (id : Nat) (params : List (String × Int)) (m : EffectStackModel)
    (h : Inv m) (hid : m.rootItem.id ≠ id) : Inv (setParameters id params m) := by
  have hroot : (setParameters id params m).rootItem = m.rootItem.withChildren
      (m.rootItem.children.map (fun c => if c.id = id then
        c.withProps (params.foldl (fun ps kv => propSet ps kv.1 kv.2) c.props) else c)) := by
    simp only [setParameters, updateItem_root _ _ _ hid, updateItemList_flat _ _ _ h.flatChildren]
  have halive : aliveItems (setParameters id params m) = (aliveItems m).map
      (fun c => if c.id = id then
        c.withProps (params.foldl (fun ps kv => propSet ps kv.1 kv.2) c.props) else c) := by
    simp only [aliveItems, hroot, withChildren_children, List.map_append]
    rfl
  have hmapid : (aliveItems (setParameters id params m)).map Item.id =
      (aliveItems m).map Item.id := by
    rw [halive, List.map_map]
    apply List.map_congr_left
    intro c _
    by_cases hc : c.id = id <;> simp [hc]
  have hmapf : (aliveItems (setParameters id params m)).map Item.filter =
      (aliveItems m).map Item.filter := by
    rw [halive, List.map_map]
    apply List.map_congr_left
    intro c _
    by_cases hc : c.id = id <;> simp [hc]
  have hmem : ∀ c ∈ aliveItems (setParameters id params m), ∃ c0 ∈ aliveItems m,
      c.id = c0.id ∧ c.filter = c0.filter ∧ c.itemType = c0.itemType ∧
      c.children = c0.children := by
    intro c hc
    rw [halive] at hc
    obtain ⟨c0, hc0, rfl⟩ := List.mem_map.mp hc
    refine ⟨c0, hc0, ?_⟩
    by_cases hc : c0.id = id <;> simp [hc]
  refine ⟨?_, ?_, ?_, ?_, ?_, ?_, ?_⟩
  · intro c hc
    obtain ⟨c0, hc0, -, -, e3, e4⟩ := hmem c hc
    rw [e3, e4]; exact h.flat c0 hc0
  · rw [hroot]; simpa [setParameters] using h.rootFresh
  · intro c hc
    obtain ⟨c0, hc0, e1, e2, -, -⟩ := hmem c hc
    rw [e1, e2, hroot]
    simpa [setParameters] using h.fresh c0 hc0
  · rw [hmapid]; exact h.ids
  · rw [hmapf]; exact h.filters
  · have : (setParameters id params m).m_service = m.m_service := rfl
    rw [this, h.service, hroot, withChildren_children, List.map_map]
    congr 1
    apply List.map_congr_left
    intro c _
    by_cases hc : c.id = id <;> simp [hc]
  · have : (setParameters id params m).m_undoStack = m.m_undoStack := rfl
    rw [this, hroot, withChildren_id]; exact h.cmds

theorem pushUndo_inv (undo redo : Fun) (text : String) (m : EffectStackModel) (h : Inv m)
    (hu : FunOk m.rootItem.id undo) (hr : FunOk m.rootItem.id redo) :
    Inv (pushUndo undo redo text m) := by
  refine ⟨h.flat, h.rootFresh, h.fresh, h.ids, h.filters, h.service, ?_⟩
  intro c hc
  simp only [pushUndo, UndoStack.push, List.append_nil, List.mem_cons] at hc
  rcases hc with rfl | hc
  · exact ⟨hu, hr⟩
  · exact h.cmds c (by simp [hc])

theorem appendEffect_inv (effectId : String) (m : EffectStackModel) (h : Inv m) :
    Inv (appendEffect effectId m) := by
  have h1 := construct_inv effectId m h
  have h2 := addItem_lambda_inv (EffectItemModel.construct effectId m).1.id _ h1
  unfold appendEffect
  simp only [Fun.run]
  split
  · apply pushUndo_inv _ _ _ _ h2.1
    · trivial
    · simp only [FunOk]; rw [h2.2.1]
  · exact h2.1

theorem copyEffect_inv (sourceItem : Item) (m : EffectStackModel) (h : Inv m) :
    Inv (copyEffect sourceItem m) := by
  unfold copyEffect
  split
  · exact h
  · have h0 := construct_inv sourceItem.assetId m h
    have hne : (EffectItemModel.construct sourceItem.assetId m).2.rootItem.id ≠
        (EffectItemModel.construct sourceItem.assetId m).1.id := by
      simp only [EffectItemModel.construct, Item.id]
      exact Nat.ne_of_lt h.rootFresh
    have h1 := setParameters_inv (EffectItemModel.construct sourceItem.assetId m).1.id
      sourceItem.props _ h0 hne
    have h2 := addItem_lambda_inv (EffectItemModel.construct sourceItem.assetId m).1.id _ h1
    simp only [Fun.run]
    split
    · apply pushUndo_inv _ _ _ _ h2.1
      · trivial
      · simp only [FunOk]; rw [h2.2.1]
    · exact h2.1

theorem removeEffect_inv (effect : Item) (m : EffectStackModel) (h : Inv m)
    (hmem : effect ∈ m.rootItem.children) : Inv (removeEffect effect m) := by
  have hfind := findItemList_mem _ effect h.flatChildren h.idsChildren hmem
  obtain ⟨l₁, l₂, -, -, -, -, -, hpar⟩ :=
    findItemList_some effect.id m.rootItem.children effect 0 m.rootItem.id h.flatChildren hfind
  have h2 := removeItem_lambda_inv effect.id m h
  unfold removeEffect
  simp only [Fun.run, parentIdBelow_root, hpar]
  split
  · apply pushUndo_inv _ _ _ _ h2.1
    · simp only [FunOk]; rw [h2.2.1]
    · trivial
  · exact h2.1

theorem moveEffect_inv (destRow row : Nat) (item : Item) (m : EffectStackModel) (h : Inv m)
    (hitem : m.rootItem.children.get? row = some item)
    (hdest : destRow < m.rootItem.childCount) : Inv (moveEffect destRow item m) := by
  obtain ⟨hcs, hlen, hlt⟩ := split_at_row _ row item hitem
  generalize hl₁ : m.rootItem.children.take row = l₁ at hcs hlen
  generalize hl₂ : m.rootItem.children.drop (row + 1) = l₂ at hcs
  have hn : m.rootItem.childCount = (l₁ ++ l₂).length + 1 := by
    simp only [Item.childCount]
    rw [hcs]; simp; omega
  have hd : destRow ≤ (l₁ ++ l₂).length := by omega
  rw [moveEffect_eq destRow item m h.stackOfLeaves l₁ l₂ hcs hd]
  refine Inv.of_perm h (withChildren_id _ _) rfl ?_ (by simp) rfl
  simp only [aliveItems, withChildren_children]
  apply List.Perm.append_right
  rw [hcs]
  refine (List.perm_middle).trans (List.Perm.trans ?_ (List.perm_middle).symm)
  rw [List.take_append_drop]

theorem undo_inv (m : EffectStackModel) (h : Inv m) : Inv (undo m) := by
  unfold undo
  split
  · exact h
  · rename_i c rest hc
    have hok := h.cmds c (by simp [hc])
    have h2 := Fun.closure_inv c.undo m h hok.1
    refine ⟨h2.1.flat, h2.1.rootFresh, h2.1.fresh, h2.1.ids, h2.1.filters, h2.1.service, ?_⟩
    intro x hx
    simp only [List.mem_append, List.mem_cons] at hx
    have hxm : x ∈ m.m_undoStack.commands ++ m.m_undoStack.undone := by
      rw [hc]
      rcases hx with hx | hx | hx
      · simp [hx]
      · simp [hx]
      · simp [hx]
    have := h.cmds x hxm
    show FunOk (c.undo.run m).2.rootItem.id x.undo ∧ FunOk (c.undo.run m).2.rootItem.id x.redo
    rw [h2.2.1]; exact this

theorem redo_inv (m : EffectStackModel) (h : Inv m) : Inv (redo m) := by
  unfold redo
  split
  · exact h
  · rename_i c rest hc
    have hok := h.cmds c (by simp [hc])
    have h2 := Fun.closure_inv c.redo m h hok.2
    refine ⟨h2.1.flat, h2.1.rootFresh, h2.1.fresh, h2.1.ids, h2.1.filters, h2.1.service, ?_⟩
    intro x hx
    simp only [List.mem_append, List.mem_cons] at hx
    have hxm : x ∈ m.m_undoStack.commands ++ m.m_undoStack.undone := by
      rw [hc]
      rcases hx with (hx | hx) | hx
      · simp [hx]
      · simp [hx]
      · simp [hx]
    have := h.cmds x hxm
    show FunOk (c.redo.run m).2.rootItem.id x.undo ∧ FunOk (c.redo.run m).2.rootItem.id x.redo
    rw [h2.2.1]; exact this

theorem construct_model_inv (itemDuration : Int) (getName : String → String) :
    Inv (EffectStackModel.construct (some []) itemDuration getName) := by
  refine ⟨?_, ?_, ?_, ?_, ?_, ?_, ?_⟩ <;>
    simp [EffectStackModel.construct, aliveItems, Flat, Item.children, Item.id]

theorem step_inv (m m1 : EffectStackModel) (op : Op) (h : Inv m) (hs : step m op = some m1) :
    Inv m1 := by
  cases op with
  | append effectId =>
    simp only [step, Option.some.injEq] at hs
    rw [← hs]; exact appendEffect_inv effectId m h
  | remove row =>
    simp only [step] at hs
    cases hg : m.rootItem.children.get? row with
    | none => rw [hg] at hs; simp at hs
    | some item =>
      rw [hg] at hs
      simp only [Option.some.injEq] at hs
      rw [← hs]
      exact removeEffect_inv item m h (by
        rw [(split_at_row _ row item hg).1]; simp)
  | move destRow row =>
    simp only [step] at hs
    cases hg : m.rootItem.children.get? row with
    | none => rw [hg] at hs; simp at hs
    | some item =>
      rw [hg] at hs
      by_cases hd : destRow < m.rootItem.childCount
      · simp only [hd, if_true, Option.some.injEq] at hs
        rw [← hs]
        exact moveEffect_inv destRow row item m h hg hd
      · simp [hd] at hs
  | copy sourceItem =>
    simp only [step, Option.some.injEq] at hs
    rw [← hs]; exact copyEffect_inv sourceItem m h
  | undo =>
    simp only [step, Option.some.injEq] at hs
    rw [← hs]; exact undo_inv m h
  | redo =>
    simp only [step, Option.some.injEq] at hs
    rw [← hs]; exact redo_inv m h

theorem run_inv (ops : List Op) : ∀ (m m1 : EffectStackModel), Inv m → run m ops = some m1 →
    Inv m1 := by
  induction ops with
  | nil =>
    intro m m1 h hr
    simp only [run, Option.some.injEq] at hr
    rw [← hr]; exact h
  | cons op ops ih =>
    intro m m1 h hr
    simp only [run] at hr
    cases hs : step m op with
    | none => rw [hs] at hr; simp at hr
    | some m2 =>
      rw [hs] at hr
      exact ih m2 m1 (step_inv m m2 op h hs) hr

theorem leafEffects_of_inv (m : EffectStackModel) (h : Inv m) :
    leafEffects m = m.rootItem.children := by
  apply List.filter_eq_self.mpr
  intro c hc
  simp [Item.childCount, (h.flatChildren c hc).2]

theorem run_take (ops : List Op) : ∀ (m m1 : EffectStackModel) (k : Nat),
    run m ops = some m1 → ∃ mk, run m (ops.take k) = some mk := by
  induction ops with
  | nil => intro m m1 k _; exact ⟨m, by simp [run]⟩
  | cons op ops ih =>
    intro m m1 k hr
    cases k with
    | zero => exact ⟨m, by simp [run]⟩
    | succ k =>
      simp only [run] at hr
      cases hs : step m op with
      | none => rw [hs] at hr; simp at hr
      | some m2 =>
        rw [hs] at hr
        obtain ⟨mk, hk⟩ := ih m2 m1 k hr
        exact ⟨mk, by simp [run, hs, hk]⟩

/-- C2: starting from the empty stack, after each step of every sequence of
append, remove, move, copy, undo and redo operations on leaf effects, the
filters of the service are the filters of the leaf effects under the root, in
the left-to-right order of these. -/
theorem leaf_order_eq_service_order (itemDuration : Int) (getName : String → String)
    (ops : List Op) (m : EffectStackModel)
    (hrun : run (EffectStackModel.construct (some []) itemDuration getName) ops = some m) :
    ∀ k, ∃ mk,
      run (EffectStackModel.construct (some []) itemDuration getName) (ops.take k) = some mk ∧
      mk.m_service = some ((leafEffects mk).map Item.filter) := by
  intro k
  obtain ⟨mk, hk⟩ := run_take ops _ m k hrun
  have h := run_inv _ _ mk (construct_model_inv itemDuration getName) hk
  refine ⟨mk, hk, ?_⟩
  rw [leafEffects_of_inv mk h]
  exact h.service

/-! ## Fades -/

theorem addItem_lambda_detached_head (item : Item) (rest : List Item) (m : EffectStackModel)
    (hdet : m.detached = item :: rest) (hleaf : item.children = []) :
    addItem_lambda item.id (m.rootItem.id : Int) m = (true, registerItem item
      { m with
        detached := m.detached.filter (fun c => decide (c.id ≠ item.id))
        rootItem := m.rootItem.withChildren (m.rootItem.children ++ [item]) }) := by
  have hpar : ¬ ((m.rootItem.id : Int) ≠ -1 ∧ ((m.rootItem.id : Int) < 0 ∨
      (findItem (m.rootItem.id : Int).toNat m.rootItem).isNone)) := by
    simp [findItem_root]
  have hne : ¬ ((m.rootItem.id : Int) = -1) := by omega
  have hfind : m.detached.find? (fun c => decide (c.id = item.id)) = some item := by
    rw [hdet]; simp
  unfold addItem_lambda
  rw [if_neg hpar]
  simp only [hfind, hne, if_false, Int.toNat_ofNat, appendChildTo_root,
    registerSelf_leaf _ _ hleaf]

theorem appendEffect_rootItem (effectId : String) (m : EffectStackModel) :
    (appendEffect effectId m).rootItem = m.rootItem.withChildren
      (m.rootItem.children ++ [Item.mk m.nextId .Effect effectId m.nextId [] []]) ∧
    (appendEffect effectId m).itemDuration = m.itemDuration := by
  have key := addItem_lambda_detached_head (EffectItemModel.construct effectId m).1 m.detached
    (EffectItemModel.construct effectId m).2 rfl rfl
  unfold appendEffect
  simp only [Fun.run]
  rw [key]
  constructor
  · simp [pushUndo, EffectItemModel.construct]
  · simp [pushUndo, EffectItemModel.construct]

theorem getEffectByIdFrom_none (name : String) : ∀ (cs : List Item) (k : Nat),
    getEffectByIdFrom name k cs = -1 ↔ ∀ c ∈ cs, c.assetId ≠ name := by
  intro cs
  induction cs with
  | nil => intro k; simp [getEffectByIdFrom]
  | cons c cs ih =>
    intro k
    rw [getEffectByIdFrom]
    by_cases hc : c.assetId = name
    · simp only [hc, if_true, List.mem_cons, forall_eq_or_imp, ne_eq, not_true_eq_false,
        false_and, iff_false]
      omega
    · simp only [hc, if_false, List.mem_cons, forall_eq_or_imp, ne_eq, not_false_eq_true,
        true_and]
      exact ih (k + 1)

theorem getEffectByIdFrom_some (name : String) : ∀ (cs : List Item) (k : Nat),
    getEffectByIdFrom name k cs ≠ -1 →
    ∃ r c, getEffectByIdFrom name k cs = ((k + r : Nat) : Int) ∧ cs.get? r = some c ∧
      c.assetId = name := by
  intro cs
  induction cs with
  | nil => intro k h; simp [getEffectByIdFrom] at h
  | cons c cs ih =>
    intro k h
    rw [getEffectByIdFrom] at h ⊢
    by_cases hc : c.assetId = name
    · exact ⟨0, c, by simp [hc], by simp, hc⟩
    · simp only [hc, if_false] at h ⊢
      obtain ⟨r, c1, h1, h2, h3⟩ := ih (k + 1) h
      exact ⟨r + 1, c1, by rw [h1]; congr 1; omega, by simpa using h2, h3⟩

theorem getEffectByIdFrom_append_last (name : String) : ∀ (cs : List Item) (x : Item) (k : Nat),
    (∀ c ∈ cs, c.assetId ≠ name) → x.assetId = name →
    getEffectByIdFrom name k (cs ++ [x]) = ((k + cs.length : Nat) : Int) := by
  intro cs
  induction cs with
  | nil => intro x k _ hx; simp [getEffectByIdFrom, hx]
  | cons c cs ih =>
    intro x k h hx
    have hc : c.assetId ≠ name := h c (by simp)
    rw [List.cons_append, getEffectByIdFrom, if_neg hc,
      ih x (k + 1) (fun y hy => h y (by simp [hy])) hx]
    simp only [List.length_cons]
    congr 1; omega

theorem getEffectByIdFrom_congr (name : String) : ∀ (cs ds : List Item) (k : Nat),
    cs.map Item.assetId = ds.map Item.assetId →
    getEffectByIdFrom name k cs = getEffectByIdFrom name k ds := by
  intro cs
  induction cs with
  | nil =>
    intro ds k h
    cases ds with
    | nil => rfl
    | cons d ds => simp at h
  | cons c cs ih =>
    intro ds k h
    cases ds with
    | nil => simp at h
    | cons d ds =>
      simp only [List.map_cons, List.cons.injEq] at h
      rw [getEffectByIdFrom, getEffectByIdFrom, h.1, ih ds (k + 1) h.2]

theorem modifyRow_assetId (g : Item → Item) (hg : ∀ c, (g c).assetId = c.assetId) :
    ∀ (cs : List Item) (n : Nat), (modifyRow g n cs).map Item.assetId = cs.map Item.assetId := by
  intro cs
  induction cs with
  | nil => intro n; simp [modifyRow]
  | cons c cs ih =>
    intro n
    cases n with
    | zero => simp [modifyRow, hg]
    | succ n => simp [modifyRow, ih n]

theorem modifyRow_get (g : Item → Item) : ∀ (cs : List Item) (n : Nat),
    (modifyRow g n cs).get? n = (cs.get? n).map g := by
  intro cs
  induction cs with
  | nil => intro n; simp [modifyRow]
  | cons c cs ih =>
    intro n
    cases n with
    | zero => simp [modifyRow]
    | succ n => simpa [modifyRow] using ih n

theorem modifyRow_append_last (g : Item → Item) : ∀ (cs : List Item) (x : Item),
    modifyRow g cs.length (cs ++ [x]) = cs ++ [g x] := by
  intro cs
  induction cs with
  | nil => intro x; simp [modifyRow]
  | cons c cs ih => intro x; simp [modifyRow, ih x]

theorem propGetInt_propSet (ps : List (String × Int)) (name : String) (v : Int) :
    propGetInt (propSet ps name v) name = v := by
  simp [propGetInt, propSet, List.lookup]

theorem lookup_filter_ne (name other : String) (h : name ≠ other) :
    ∀ (ps : List (String × Int)),
      (ps.filter (fun p => p.1 != other)).lookup name = ps.lookup name := by
  intro ps
  induction ps with
  | nil => simp
  | cons p ps ih =>
    obtain ⟨k, v⟩ := p
    by_cases hk : k = other
    · subst hk
      have hnk : (name == k) = false := by simp [h]
      simp [List.filter_cons, List.lookup, hnk, ih]
    · have hk1 : (k != other) = true := by simp [hk]
      rw [List.filter_cons, if_pos (by simpa using hk)]
      by_cases hnk : name = k
      · simp [List.lookup, hnk]
      · have : (name == k) = false := by simp [hnk]
        simp [List.lookup, this, ih]

theorem propGetInt_propSet_ne (ps : List (String × Int)) (name other : String) (v : Int)
    (h : name ≠ other) : propGetInt (propSet ps other v) name = propGetInt ps name := by
  have hno : (name == other) = false := by simp [h]
  simp only [propGetInt, propSet, List.lookup, hno, lookup_filter_ne name other h ps]

theorem setFilterProp_rootItem (row : Nat) (name : String) (v : Int) (m : EffectStackModel) :
    (setFilterProp (row : Int) name v m).rootItem = m.rootItem.withChildren
      (modifyRow (fun c => c.withProps (propSet c.props name v)) row m.rootItem.children) := by
  have h : ¬ ((row : Int) < 0) := by omega
  simp [setFilterProp, h]

@[simp] theorem setFilterProp_itemDuration (row : Int) (name : String) (v : Int)
    (m : EffectStackModel) : (setFilterProp row name v m).itemDuration = m.itemDuration := by
  unfold setFilterProp; split <;> rfl

@[simp] theorem emitDataChanged_rootItem (a b : ModelIndex) (m : EffectStackModel) :
    (emitDataChanged a b m).rootItem = m.rootItem := rfl

theorem childCount_append_one (r : Item) (cs : List Item) (x : Item) :
    (((r.withChildren (cs ++ [x])).childCount : Nat) : Int) - 1 = (cs.length : Int) := by
  simp [Item.childCount]

theorem fadein_first (m : EffectStackModel) (d : Int) (h : getEffectById "fadein" m = -1) :
    (adjustFadeLength d true true false m).2.rootItem = m.rootItem.withChildren
      (m.rootItem.children ++ [Item.mk m.nextId .Effect "fadein" m.nextId [("out", d)] []]) := by
  have hgt : ((m.rootItem.children.length : Nat) : Int) > -1 := by omega
  simp only [adjustFadeLength, appendMissingFades, h, if_true, and_self,
    (appendEffect_rootItem "fadein" m).1, childCount_append_one, hgt, Bool.false_eq_true,
    if_false, false_and, emitDataChanged_rootItem, setFilterProp_rootItem,
    withChildren_children, withChildren_withChildren, modifyRow_append_last]
  rfl

theorem fadein_again (m : EffectStackModel) (d : Int) (cs : List Item) (x : Item)
    (hcs : m.rootItem.children = cs ++ [x]) (hno : ∀ c ∈ cs, c.assetId ≠ "fadein")
    (hx : x.assetId = "fadein") :
    (adjustFadeLength d true true false m).2.rootItem = m.rootItem.withChildren
      (cs ++ [x.withProps (propSet x.props "out" d)]) := by
  have hrow : getEffectById "fadein" m = ((cs.length : Nat) : Int) := by
    rw [getEffectById, hcs, getEffectByIdFrom_append_last "fadein" cs x 0 hno hx]
    simp
  have hne : ¬ (((cs.length : Nat) : Int) = -1) := by omega
  have hgt : ((cs.length : Nat) : Int) > -1 := by omega
  simp only [adjustFadeLength, appendMissingFades, hrow, if_true, hne, false_and, if_false,
    hgt, and_self, Bool.false_eq_true, emitDataChanged_rootItem, setFilterProp_rootItem, hcs,
    modifyRow_append_last]

/-- C4: on a stack with no `fadein` effect among the children of the root,
`adjustFadeLength(d1, true, true, false)` appends exactly one child, the new
last child has asset id `fadein` and `out` equal to `d1`; a following
`adjustFadeLength(d2, true, true, false)` keeps the child count and sets `out`
of that same child to `d2`. -/
theorem setFadeLength_fadein (m : EffectStackModel) (d1 d2 : Int)
    (h : getEffectById "fadein" m = -1) :
    ∃ e1 e2 : Item,
      (adjustFadeLength d1 true true false m).2.rootItem.children =
        m.rootItem.children ++ [e1] ∧
      (adjustFadeLength d1 true true false m).2.rootItem.childCount =
        m.rootItem.childCount + 1 ∧
      e1.assetId = "fadein" ∧ propGetInt e1.props "out" = d1 ∧
      (adjustFadeLength d2 true true false
        (adjustFadeLength d1 true true false m).2).2.rootItem.children =
        m.rootItem.children ++ [e2] ∧
      (adjustFadeLength d2 true true false
        (adjustFadeLength d1 true true false m).2).2.rootItem.childCount =
        (adjustFadeLength d1 true true false m).2.rootItem.childCount ∧
      e2.id = e1.id ∧ e2.filter = e1.filter ∧ e2.assetId = "fadein" ∧
      propGetInt e2.props "out" = d2 := by
  have hno : ∀ c ∈ m.rootItem.children, c.assetId ≠ "fadein" :=
    (getEffectByIdFrom_none "fadein" m.rootItem.children 0).mp h
  have h1 := fadein_first m d1 h
  have hcs1 : (adjustFadeLength d1 true true false m).2.rootItem.children =
      m.rootItem.children ++ [Item.mk m.nextId .Effect "fadein" m.nextId [("out", d1)] []] := by
    rw [h1]; simp
  have h2 := fadein_again (adjustFadeLength d1 true true false m).2 d2 m.rootItem.children
    (Item.mk m.nextId .Effect "fadein" m.nextId [("out", d1)] []) hcs1 hno rfl
  refine ⟨Item.mk m.nextId .Effect "fadein" m.nextId [("out", d1)] [],
    (Item.mk m.nextId .Effect "fadein" m.nextId [("out", d1)] []).withProps
      (propSet [("out", d1)] "out" d2), hcs1, ?_, rfl, ?_, ?_, ?_, rfl, rfl, rfl, ?_⟩
  · simp [Item.childCount, hcs1]
  · simp [propGetInt, Item.props, List.lookup]
  · rw [h2]; simp [Item.props]
  · rw [h2]; simp [Item.childCount, hcs1]
  · simp [propGetInt_propSet]

theorem wrap32_of_isInt32 (x : Int) (h : isInt32 x) : wrap32 x = x := by
  unfold isInt32 at h
  unfold wrap32
  omega

theorem modifyRow_modifyRow (g1 g2 : Item → Item) : ∀ (cs : List Item) (n : Nat),
    modifyRow g2 n (modifyRow g1 n cs) = modifyRow (fun c => g2 (g1 c)) n cs := by
  intro cs
  induction cs with
  | nil => intro n; simp [modifyRow]
  | cons c cs ih =>
    intro n
    cases n with
    | zero => simp [modifyRow]
    | succ n => simp [modifyRow, ih n]

theorem fade_to_black_children (m : EffectStackModel) (d : Int) :
    ∃ (cs1 : List Item) (r : Nat) (c : Item),
      (adjustFadeLength d false false true m).2.rootItem.children =
        modifyRow (withFadeOut m.itemDuration d) r cs1 ∧
      cs1.get? r = some c ∧ c.assetId = "fade_to_black" ∧
      getEffectByIdFrom "fade_to_black" 0 cs1 = (r : Int) ∧
      (∀ name, name ≠ "fade_to_black" → (∀ c ∈ m.rootItem.children, c.assetId ≠ name) →
        ∀ c ∈ cs1, c.assetId ≠ name) := by
  by_cases h : getEffectById "fade_to_black" m = -1
  · have hno := (getEffectByIdFrom_none "fade_to_black" m.rootItem.children 0).mp h
    have hgt : ((m.rootItem.children.length : Nat) : Int) > -1 := by omega
    refine ⟨m.rootItem.children ++ [Item.mk m.nextId .Effect "fade_to_black" m.nextId [] []],
      m.rootItem.children.length, Item.mk m.nextId .Effect "fade_to_black" m.nextId [] [],
      ?_, by simp, rfl, ?_, ?_⟩
    · simp only [adjustFadeLength, appendMissingFades, h, if_true, and_self,
        (appendEffect_rootItem "fade_to_black" m).1, (appendEffect_rootItem "fade_to_black" m).2,
        childCount_append_one, hgt, Bool.false_eq_true,
        if_false, false_and, emitDataChanged_rootItem, setFilterProp_rootItem,
        withChildren_children, withChildren_withChildren, modifyRow_modifyRow,
        setFilterProp_itemDuration]
      congr 1
      funext c
      simp [withFadeOut]
    · rw [getEffectByIdFrom_append_last "fade_to_black" _
        (Item.mk m.nextId .Effect "fade_to_black" m.nextId [] []) 0 hno rfl]
      simp
    · intro name hname hall c hc
      rcases List.mem_append.mp hc with hc | hc
      · exact hall c hc
      · simp only [List.mem_singleton] at hc
        rw [hc]; exact fun heq => hname heq.symm
  · obtain ⟨r, c, hr, hget, hc⟩ := getEffectByIdFrom_some "fade_to_black" m.rootItem.children 0 h
    simp only [Nat.zero_add] at hr
    have hrow : getEffectById "fade_to_black" m = (r : Int) := hr
    have hne : ¬ ((r : Int) = -1) := by omega
    have hgt : (r : Int) > -1 := by omega
    refine ⟨m.rootItem.children, r, c, ?_, hget, hc, hr, fun _ _ hall => hall⟩
    simp only [adjustFadeLength, appendMissingFades, hrow, hne, and_false, if_true, if_false,
      hgt, and_self, Bool.false_eq_true, false_and, emitDataChanged_rootItem,
      setFilterProp_rootItem, withChildren_children, modifyRow_modifyRow,
      setFilterProp_itemDuration]
    congr 1
    funext c
    simp [withFadeOut]

/-- C6: on a stack with no `fadeout` effect among the children of the root, with
owner duration `T`, after `adjustFadeLength(d, false, false, true)` the
`fade_to_black` effect found by `getEffectById` has `out = T` and
`in = T - d`, and `getFadePosition(false)` returns `d` (all values being C++
`int`s). -/
theorem setFadeLength_fade_to_black (m : EffectStackModel) (d : Int)
    (h : getEffectById "fadeout" m = -1)
    (hd : isInt32 d) (hTd : isInt32 (m.itemDuration - d)) :
    ∃ e : Item,
      getEffectStackRow (getEffectById "fade_to_black" (adjustFadeLength d false false true m).2)
        (adjustFadeLength d false false true m).2 = some e ∧
      e.assetId = "fade_to_black" ∧
      propGetInt e.props "out" = m.itemDuration ∧
      propGetInt e.props "in" = m.itemDuration - d ∧
      getFadePosition false (adjustFadeLength d false false true m).2 = d := by
  obtain ⟨cs1, r, c, hcs, hget, hc, hrow, hother⟩ := fade_to_black_children m d
  have hno := (getEffectByIdFrom_none "fadeout" m.rootItem.children 0).mp h
  have hmap : (modifyRow (withFadeOut m.itemDuration d) r cs1).map Item.assetId =
      cs1.map Item.assetId :=
    modifyRow_assetId _ (fun c => by simp [withFadeOut]) cs1 r
  have hrow1 : getEffectById "fade_to_black" (adjustFadeLength d false false true m).2 = (r : Int) := by
    rw [getEffectById, hcs, getEffectByIdFrom_congr _ _ _ 0 hmap, hrow]
  have hrow2 : getEffectById "fadeout" (adjustFadeLength d false false true m).2 = -1 := by
    rw [getEffectById, hcs, getEffectByIdFrom_congr _ _ _ 0 hmap]
    exact (getEffectByIdFrom_none "fadeout" cs1 0).mpr (hother "fadeout" (by decide) hno)
  have hnneg : ¬ ((r : Int) < 0) := by omega
  have heff : getEffectStackRow (r : Int) (adjustFadeLength d false false true m).2 =
      some (withFadeOut m.itemDuration d c) := by
    simp only [getEffectStackRow, hnneg, if_false, Int.toNat_ofNat, hcs, modifyRow_get, hget,
      Option.map_some']
  have hout : propGetInt (withFadeOut m.itemDuration d c).props "out" = m.itemDuration := by
    simp only [withFadeOut, withProps_props]
    rw [propGetInt_propSet_ne _ "out" "in" _ (by decide), propGetInt_propSet]
  have hin : propGetInt (withFadeOut m.itemDuration d c).props "in" = m.itemDuration - d := by
    simp only [withFadeOut, withProps_props]
    rw [propGetInt_propSet, intSub, wrap32_of_isInt32 _ hTd]
  refine ⟨withFadeOut m.itemDuration d c, by rw [hrow1, heff], by simp [withFadeOut, hc],
    hout, hin, ?_⟩
  have hne : ¬ ((r : Int) = -1) := by omega
  simp only [getFadePosition, hrow2, hrow1, if_true, hne, heff, Bool.false_eq_true, if_false,
    ne_eq, not_false_eq_true, hout, hin]
  rw [intSub]
  have : m.itemDuration - (m.itemDuration - d) = d := by ring
  rw [this, wrap32_of_isInt32 _ hd]

/-! ## The undo stack -/

@[simp] theorem deregisterItem_undoStack (item : Item) (m : EffectStackModel) :
    (deregisterItem item m).m_undoStack = m.m_undoStack := by
  unfold deregisterItem; split <;> rfl

@[simp] theorem deregisterItem_rootItem (item : Item) (m : EffectStackModel) :
    (deregisterItem item m).rootItem = m.rootItem := by
  unfold deregisterItem; split <;> rfl

theorem foldl_registerItem (l : List Item) : ∀ (m : EffectStackModel),
    (l.foldl (fun s n => registerItem n s) m).m_undoStack = m.m_undoStack ∧
    (l.foldl (fun s n => registerItem n s) m).rootItem = m.rootItem := by
  induction l with
  | nil => intro m; exact ⟨rfl, rfl⟩
  | cons c cs ih =>
    intro m
    simp only [List.foldl_cons]
    rw [(ih _).1, (ih _).2]
    simp

theorem foldl_deregisterItem (l : List Item) : ∀ (m : EffectStackModel),
    (l.foldl (fun s n => deregisterItem n s) m).m_undoStack = m.m_undoStack ∧
    (l.foldl (fun s n => deregisterItem n s) m).rootItem = m.rootItem := by
  induction l with
  | nil => intro m; exact ⟨rfl, rfl⟩
  | cons c cs ih =>
    intro m
    simp only [List.foldl_cons]
    rw [(ih _).1, (ih _).2]
    simp

theorem detachItem_undoStack (id : Nat) (m m1 : EffectStackModel) (a : Item)
    (h : detachItem id m = some (a, m1)) :
    m1.m_undoStack = m.m_undoStack ∧ m1.rootItem = removeChild id m.rootItem := by
  unfold detachItem at h
  split at h
  · simp at h
  · simp only [Option.some.injEq, Prod.mk.injEq] at h
    rw [← h.2]
    exact ⟨(foldl_deregisterItem _ _).1, (foldl_deregisterItem _ _).2⟩

theorem removeItem_lambda_undoStack (id : Nat) (m : EffectStackModel) :
    (removeItem_lambda id m).2.m_undoStack = m.m_undoStack := by
  unfold removeItem_lambda
  cases h : detachItem id m with
  | none => rfl
  | some p =>
    obtain ⟨a, m1⟩ := p
    exact (detachItem_undoStack id m m1 a h).1

theorem addItem_lambda_undoStack (id : Nat) (parentId : Int) (m : EffectStackModel) :
    (addItem_lambda id parentId m).2.m_undoStack = m.m_undoStack := by
  unfold addItem_lambda
  split
  · rfl
  · cases hd : m.detached.find? (fun c => decide (c.id = id)) with
    | some a =>
      dsimp only
      split
      · rfl
      · exact (foldl_registerItem _ _).1
    | none =>
      dsimp only
      cases h : detachItem id m with
      | none => rfl
      | some p =>
        obtain ⟨a, m1⟩ := p
        dsimp only
        split
        · exact (detachItem_undoStack id m m1 a h).1
        · rw [registerSelf, (foldl_registerItem _ _).1]
          exact (detachItem_undoStack id m m1 a h).1

theorem importEffect_undoStack (item : Item) (m : EffectStackModel) :
    (importEffect item m).m_undoStack = m.m_undoStack := by
  unfold importEffect
  split
  · rfl
  · simp only [Fun.run]
    rw [addItem_lambda_undoStack]
    simp only [setParameters, appendChild, registerSelf]
    rw [(foldl_registerItem _ _).1]
    rfl

/-- The amended C9: `importEffects` pushes no undo command: the undo stack of the
target is the same before and after the call, whatever the source stack holds. -/
theorem importEffects_undoStack (sourceStack m : EffectStackModel) :
    (importEffects sourceStack m).m_undoStack = m.m_undoStack := by
  unfold importEffects
  generalize sourceStack.rootItem.children = items
  induction items generalizing m with
  | nil => rfl
  | cons c cs ih =>
    simp only [List.foldl_cons]
    rw [ih, importEffect_undoStack]

/-- The counterexample to C9: importing a source stack with one leaf effect into
the empty stack pushes no command, not one. -/
theorem importEffects_pushes_counterexample :
    (leafEffects audioFadeOnly).length = 1 ∧
    ¬ ((importEffects audioFadeOnly emptyStack).m_undoStack.commands.length =
        emptyStack.m_undoStack.commands.length + 1) := by
  decide

/-! ## Removing an effect -/

theorem findItem_none_id (id : Nat) (c : Item) (h : findItem id c = none) : c.id ≠ id := by
  cases c with
  | mk i t a f p cs =>
    intro hid
    simp only [Item.id] at hid
    simp [findItem, hid] at h

mutual
theorem removeChild_not_found (id : Nat) : ∀ (c : Item), findItem id c = none →
    removeChild id c = c
  | .mk i t a f p cs, h => by
    have hne : ¬ (i = id) := by
      intro hid
      simp [findItem, hid] at h
    have hcs : findItemList id cs = none := by
      simpa [findItem, hne] using h
    simp [removeChild, removeChildList_not_found id cs hcs]
theorem removeChildList_not_found (id : Nat) : ∀ (cs : List Item), findItemList id cs = none →
    removeChildList id cs = cs
  | [], _ => by simp [removeChildList]
  | c :: cs, h => by
    have hc : findItem id c = none := by
      cases hf : findItem id c with
      | none => rfl
      | some x => simp [findItemList, hf] at h
    have hcs : findItemList id cs = none := by
      simpa [findItemList, hc] using h
    have hne := findItem_none_id id c hc
    simp [removeChildList, hne, removeChild_not_found id c hc,
      removeChildList_not_found id cs hcs]
end

mutual
theorem parentIdBelow_not_found (id : Nat) : ∀ (c : Item), findItem id c = none →
    parentIdBelow id c = none
  | .mk i t a f p cs, h => by
    have hne : ¬ (i = id) := by
      intro hid
      simp [findItem, hid] at h
    have hcs : findItemList id cs = none := by
      simpa [findItem, hne] using h
    simp [parentIdBelow, parentIdInList_not_found id i cs hcs]
theorem parentIdInList_not_found (id pid : Nat) : ∀ (cs : List Item),
    findItemList id cs = none → parentIdInList id pid cs = none
  | [], _ => by simp [parentIdInList]
  | c :: cs, h => by
    have hc : findItem id c = none := by
      cases hf : findItem id c with
      | none => rfl
      | some x => simp [findItemList, hf] at h
    have hcs : findItemList id cs = none := by
      simpa [findItemList, hc] using h
    have hne := findItem_none_id id c hc
    simp [parentIdInList, hne, parentIdBelow_not_found id c hc,
      parentIdInList_not_found id pid cs hcs]
end

theorem hasEffect_iff (name : String) (m : EffectStackModel) :
    hasEffect name m ↔ name ∈ assetIds m := by
  simp only [hasEffect, assetIds, List.mem_map]

theorem getEffectById_none_iff (name : String) (m : EffectStackModel) :
    getEffectById name m = -1 ↔ ¬ hasEffect name m := by
  rw [getEffectById, getEffectByIdFrom_none]
  simp [hasEffect]

theorem setFilterProp_assetIds (row : Int) (name : String) (v : Int) (m : EffectStackModel) :
    assetIds (setFilterProp row name v m) = assetIds m := by
  unfold setFilterProp
  split
  · rfl
  · simp only [assetIds, withChildren_children]
    exact modifyRow_assetId _ (fun c => by simp) _ _

theorem emitDataChanged_assetIds (x y : ModelIndex) (m : EffectStackModel) :
    assetIds (emitDataChanged x y m) = assetIds m := rfl

theorem appendEffect_assetIds (effectId : String) (m : EffectStackModel) :
    assetIds (appendEffect effectId m) = assetIds m ++ [effectId] := by
  simp [assetIds, (appendEffect_rootItem effectId m).1, Item.assetId]

theorem appendMissingFades_assetIds (audioId videoId : String) (a v : Bool)
    (m : EffectStackModel) :
    assetIds (appendMissingFades audioId videoId a v (-1) (-1) m).2.2 =
      assetIds m ++ (if a then [audioId] else []) ++ (if v then [videoId] else []) := by
  cases a <;> cases v <;> simp [appendMissingFades, appendEffect_assetIds]

theorem adjustFadeLength_assetIds (d : Int) (fromStart a v : Bool) (m : EffectStackModel) :
    assetIds (adjustFadeLength d fromStart a v m).2 =
      assetIds (appendMissingFades (audioFadeId fromStart) (videoFadeId fromStart) a v
        (if a then getEffectById (audioFadeId fromStart) m else -1)
        (if v then getEffectById (videoFadeId fromStart) m else -1) m).2.2 := by
  cases fromStart
  · simp only [adjustFadeLength, audioFadeId, videoFadeId, Bool.false_eq_true, if_false]
    generalize appendMissingFades "fadeout" "fade_to_black" a v
      (if a = true then getEffectById "fadeout" m else -1)
      (if v = true then getEffectById "fade_to_black" m else -1) m = t
    obtain ⟨ar, vr, m1⟩ := t
    dsimp only
    rw [emitDataChanged_assetIds]
    by_cases h1 : a = true ∧ ar > -1 <;> by_cases h2 : v = true ∧ vr > -1 <;>
      simp only [h1, h2, and_self, if_true, if_false, setFilterProp_assetIds]
  · simp only [adjustFadeLength, audioFadeId, videoFadeId, if_true]
    generalize appendMissingFades "fadein" "fade_from_black" a v
      (if a = true then getEffectById "fadein" m else -1)
      (if v = true then getEffectById "fade_from_black" m else -1) m = t
    obtain ⟨ar, vr, m1⟩ := t
    dsimp only
    rw [emitDataChanged_assetIds]
    by_cases h1 : a = true ∧ ar > -1 <;> by_cases h2 : v = true ∧ vr > -1 <;>
      simp only [h1, h2, and_self, if_true, if_false, setFilterProp_assetIds]

/-- The amended C5: when none of the requested channels has a fade effect of the
relevant kind among the children of the root, `adjustFadeLength` appends one
for each requested channel, so that afterwards the root has a child with the
fade asset id of every requested channel. -/
theorem setFadeLength_appends_missing (m : EffectStackModel) (d : Int)
    (fromStart applyAudio applyVideo : Bool)
    (ha : applyAudio = true → ¬ hasEffect (audioFadeId fromStart) m)
    (hv : applyVideo = true → ¬ hasEffect (videoFadeId fromStart) m) :
    (applyAudio = true →
      hasEffect (audioFadeId fromStart) (adjustFadeLength d fromStart applyAudio applyVideo m).2) ∧
    (applyVideo = true →
      hasEffect (videoFadeId fromStart) (adjustFadeLength d fromStart applyAudio applyVideo m).2) := by
  have har : (if applyAudio then getEffectById (audioFadeId fromStart) m else -1) = -1 := by
    by_cases h : applyAudio = true
    · simp only [h, if_true]
      exact (getEffectById_none_iff _ m).mpr (ha h)
    · simp [h]
  have hvr : (if applyVideo then getEffectById (videoFadeId fromStart) m else -1) = -1 := by
    by_cases h : applyVideo = true
    · simp only [h, if_true]
      exact (getEffectById_none_iff _ m).mpr (hv h)
    · simp [h]
  have hids := adjustFadeLength_assetIds d fromStart applyAudio applyVideo m
  rw [har, hvr, appendMissingFades_assetIds] at hids
  constructor
  · intro h
    rw [hasEffect_iff, hids]
    simp [h]
  · intro h
    rw [hasEffect_iff, hids]
    simp [h]

/-- Witness for the amended C5: both fades in are requested on the empty stack. -/
theorem setFadeLength_appends_missing_witness :
    (true = true → ¬ hasEffect (audioFadeId true) emptyStack) ∧
    (true = true → ¬ hasEffect (videoFadeId true) emptyStack) ∧
    (true = true →
      hasEffect (audioFadeId true) (adjustFadeLength 50 true true true emptyStack).2) ∧
    (true = true →
      hasEffect (videoFadeId true) (adjustFadeLength 50 true true true emptyStack).2) :=
  ⟨fun _ h => by obtain ⟨c, hc, -⟩ := h; exact absurd hc (List.not_mem_nil c),
   fun _ h => by obtain ⟨c, hc, -⟩ := h; exact absurd hc (List.not_mem_nil c),
   setFadeLength_appends_missing emptyStack 50 true true true
     (fun _ h => by obtain ⟨c, hc, -⟩ := h; exact absurd hc (List.not_mem_nil c))
     (fun _ h => by obtain ⟨c, hc, -⟩ := h; exact absurd hc (List.not_mem_nil c))⟩

/-- The counterexample to C5: on a stack that holds `fadein` only, a call that
requests both channels appends nothing, and the root has no `fade_from_black`
child afterwards. -/
theorem setFadeLength_appends_counterexample :
    ¬ hasEffect (videoFadeId true) audioFadeOnly ∧
    ¬ ((true = true →
        hasEffect (audioFadeId true) (adjustFadeLength 50 true true true audioFadeOnly).2) ∧
      (true = true →
        hasEffect (videoFadeId true) (adjustFadeLength 50 true true true audioFadeOnly).2)) := by
  constructor
  · exact (getEffectById_none_iff _ _).mp (by decide)
  · intro h
    exact (getEffectById_none_iff _ _).mp (by decide) (h.2 rfl)

/-- C10 at its failing input: with the video fade in at row 0 and the audio fade
in at row 1, `adjustFadeLength(10, true, true, true)` emits
`dataChanged` from row 1 to row 0. -/
theorem setFadeLength_dataChanged_inverted :
    getEffectById "fadein" videoBeforeAudio = 1 ∧
    getEffectById "fade_from_black" videoBeforeAudio = 0 ∧
    (adjustFadeLength 10 true true true videoBeforeAudio).2.dataChanged.head? =
      some (some 1, some 0) := by
  decide

/-! ## Instances -/

/-- Witness for C2: the operations of `sampleOps` run from the empty stack,
and after each of them the service carries the filters of the leaf effects in
their order. -/
theorem leaf_order_eq_service_order_witness :
    run (EffectStackModel.construct (some []) 1000 (fun s => s)) sampleOps = some sampleResult ∧
    ∀ k, ∃ mk,
      run (EffectStackModel.construct (some []) 1000 (fun s => s)) (sampleOps.take k) = some mk ∧
      mk.m_service = some ((leafEffects mk).map Item.filter) :=
  ⟨rfl, leaf_order_eq_service_order 1000 (fun s => s) sampleOps sampleResult rfl⟩

theorem threeEffects_stackOfLeaves : StackOfLeaves threeEffects := by
  have hcs : threeEffects.rootItem.children =
      [.mk 1 .Effect "a" 1 [] [], .mk 2 .Effect "b" 2 [] [], .mk 3 .Effect "c" 3 [] []] := rfl
  refine ⟨?_, by decide, by decide, by decide⟩
  intro c hc
  rw [hcs] at hc
  simp only [List.mem_cons, List.mem_singleton, List.not_mem_nil, or_false] at hc
  rcases hc with rfl | rfl | rfl <;> exact ⟨rfl, rfl⟩

/-- Witness for C3: the first of three effects is moved to the last row, twice. -/
theorem moveEffect_idempotent_witness :
    StackOfLeaves threeEffects ∧
    threeEffects.rootItem.children.get? 0 = some firstEffect ∧
    2 < threeEffects.rootItem.childCount ∧
    ((moveEffect 2 firstEffect (moveEffect 2 firstEffect threeEffects)).rootItem.children =
        (moveEffect 2 firstEffect threeEffects).rootItem.children ∧
      (moveEffect 2 firstEffect (moveEffect 2 firstEffect threeEffects)).m_service =
        (moveEffect 2 firstEffect threeEffects).m_service ∧
      (2 = 0 →
        (moveEffect 2 firstEffect threeEffects).rootItem.children =
          threeEffects.rootItem.children ∧
        (moveEffect 2 firstEffect threeEffects).m_service = threeEffects.m_service)) :=
  ⟨threeEffects_stackOfLeaves, rfl, by decide,
    moveEffect_idempotent threeEffects threeEffects_stackOfLeaves 0 2 firstEffect rfl
      (by decide)⟩

/-- Witness for C4: durations 50 and 80 on the empty stack. -/
theorem setFadeLength_fadein_witness :
    getEffectById "fadein" emptyStack = -1 ∧
    ∃ e1 e2 : Item,
      (adjustFadeLength 50 true true false emptyStack).2.rootItem.children =
        emptyStack.rootItem.children ++ [e1] ∧
      (adjustFadeLength 50 true true false emptyStack).2.rootItem.childCount =
        emptyStack.rootItem.childCount + 1 ∧
      e1.assetId = "fadein" ∧ propGetInt e1.props "out" = 50 ∧
      (adjustFadeLength 80 true true false
        (adjustFadeLength 50 true true false emptyStack).2).2.rootItem.children =
        emptyStack.rootItem.children ++ [e2] ∧
      (adjustFadeLength 80 true true false
        (adjustFadeLength 50 true true false emptyStack).2).2.rootItem.childCount =
        (adjustFadeLength 50 true true false emptyStack).2.rootItem.childCount ∧
      e2.id = e1.id ∧ e2.filter = e1.filter ∧ e2.assetId = "fadein" ∧
      propGetInt e2.props "out" = 80 :=
  ⟨by decide, setFadeLength_fadein emptyStack 50 80 (by decide)⟩

/-- Witness for C6: owner duration 1000 and fade duration 120, so that `in` is
880. -/
theorem setFadeLength_fade_to_black_witness :
    getEffectById "fadeout" emptyStack = -1 ∧ isInt32 120 ∧
    isInt32 (emptyStack.itemDuration - 120) ∧ emptyStack.itemDuration - 120 = 880 ∧
    ∃ e : Item,
      getEffectStackRow
        (getEffectById "fade_to_black" (adjustFadeLength 120 false false true emptyStack).2)
        (adjustFadeLength 120 false false true emptyStack).2 = some e ∧
      e.assetId = "fade_to_black" ∧
      propGetInt e.props "out" = emptyStack.itemDuration ∧
      propGetInt e.props "in" = emptyStack.itemDuration - 120 ∧
      getFadePosition false (adjustFadeLength 120 false false true emptyStack).2 = 120 :=
  ⟨by decide, by unfold isInt32; decide, by unfold isInt32; decide, by decide,
    setFadeLength_fade_to_black emptyStack 120 (by decide) (by unfold isInt32; decide)
      (by unfold isInt32; decide)⟩

/-- The counterexample to C8: among three effects, moving the effect of row 0 to
row 1 emits `dataChanged` from row 0 to row 2, not from row 0 to row 1. -/
theorem moveEffect_dataChanged_counterexample :
    threeEffects.rootItem.children.get? 0 = some firstEffect ∧
    (moveEffect 1 firstEffect threeEffects).dataChanged.head? = some (some 0, some 2) ∧
    ¬ ((moveEffect 1 firstEffect threeEffects).dataChanged.head? =
        some (some (min 0 1), some (max 0 1))) :=
  ⟨rfl, by decide, by decide⟩

/-- Witness for the amended C8: among three effects, the effect of row 0 is
moved to row 1. -/
theorem moveEffect_dataChanged_witness :
    StackOfLeaves threeEffects ∧
    threeEffects.rootItem.children.get? 0 = some firstEffect ∧
    1 < threeEffects.rootItem.childCount ∧
    ∃ start, (moveEffect 1 firstEffect threeEffects).dataChanged =
        (start, some (threeEffects.rootItem.childCount - 1)) :: threeEffects.dataChanged ∧
      (0 ≤ 1 → start = some 0) :=
  ⟨threeEffects_stackOfLeaves, rfl, by decide,
    moveEffect_dataChanged threeEffects threeEffects_stackOfLeaves 0 1 firstEffect rfl
      (by decide)⟩

end EffectStack
